import Mathlib

/-!
Verification development for the Finance-Dashboard transaction reconciliation
and ledger-settlement engine.

The TypeScript source is shallowly embedded as follows:
- JS numbers are modelled as rationals (ℚ).  The amounts occurring in the
  ledger are small decimal quantities for which JS float arithmetic and exact
  rational arithmetic agree on every comparison performed by the code; all
  concrete counterexamples below are chosen so that the float computation and
  the rational computation take the same branches.
- Calendar dates (stored as "YYYY-MM-DD" strings and compared through
  `new Date(..).getTime()`) are modelled by their epoch-day number (an ℤ).
  For date-only strings this is order- and difference-isomorphic to
  `getTime` (which is the day number times 86 400 000 ms).
- Timestamp strings (`new Date().toISOString()`, `Date.now().toString()`,
  generated random ids) are modelled as opaque `String` parameters.
- `undefined`-able fields become `Option`; JS truthiness tests on strings
  (`!x`, `x || d`) are modelled explicitly (empty string is falsy).
- The JS `Map` used for batched updates is modelled as an insertion-ordered
  association list with `Map.set` semantics.
-/

namespace FinDash

/-! ## JS primitive models -/

/-- Model of `parseFloat(x.toFixed(2))`: round to 2 decimal places.
`toFixed` picks the closest 2-decimal value, ties towards the larger value. -/
def round2 (q : ℚ) : ℚ := (⌊q * 100 + 1/2⌋ : ℤ) / 100

/-- JS truthiness of an optional string: `undefined` and `""` are falsy. -/
def jsStrFalsy : Option String → Bool
  | none => true
  | some s => s == ""

/-- Model of `o || d` for an optional string `o`: falsy values give `d`. -/
def jsStrOrElse (o : Option String) (d : String) : String :=
  match o with
  | none => d
  | some s => if s == "" then d else s

/-- Adding one element to a JS `Set` materialised as an insertion-ordered
duplicate-free list: a new element is appended at the end. -/
def jsSetInsert (l : List String) (t : String) : List String :=
  if t ∈ l then l else l ++ [t]

/-- Model of `new Set(l)`: keeps the first occurrence of each element,
in insertion order. -/
def jsSetOfList (l : List String) : List String := l.foldl jsSetInsert []

/-- Model of `const s = new Set(tags); newTags.forEach(t => s.add(t));
Array.from(s)`. -/
def jsAddTags (tags newTags : List String) : List String :=
  newTags.foldl jsSetInsert (jsSetOfList tags)

/-- Reads a maximal leading run of decimal digits: returns their value,
how many there were, and the rest of the characters. -/
def readDigits : List Char → ℕ → ℕ → ℕ × ℕ × List Char
  | c :: rest, acc, n =>
    if c.isDigit then readDigits rest (10 * acc + (c.toNat - 48)) (n + 1)
    else (acc, n, c :: rest)
  | [], acc, n => (acc, n, [])

/-- Model of JS `parseFloat` on the decimal forms that occur in rule values:
optional leading spaces, optional sign, digits with an optional fractional
part; any further characters are ignored (longest-prefix semantics).
Exponent notation is not modelled.  `none` stands for `NaN`. -/
def jsParseFloat (s : String) : Option ℚ :=
  let cs := s.toList.dropWhile (fun c => c == ' ')
  let signAndRest : ℚ × List Char :=
    match cs with
    | '-' :: r => (-1, r)
    | '+' :: r => (1, r)
    | r => (1, r)
  let sign := signAndRest.1
  let (ip, ipn, rest) := readDigits signAndRest.2 0 0
  match rest with
  | '.' :: r =>
    let (fp, fpn, _) := readDigits r 0 0
    if ipn = 0 ∧ fpn = 0 then none
    else some (sign * ((ip : ℚ) + (fp : ℚ) / (10 : ℚ) ^ fpn))
  | _ => if ipn = 0 then none else some (sign * (ip : ℚ))

/-! ## Data model (types.ts) -/

structure Payment where
  id : String
  date : String
  amount : ℚ
deriving DecidableEq

structure SplitItem where
  id : String
  name : String
  amount : ℚ
  paidAmount : Option ℚ
  isSettled : Bool
  dateSettled : Option String
  payments : Option (List Payment)
deriving DecidableEq

inductive SplitType
  | equal
  | exact
  | shares
deriving DecidableEq

structure SplitDetails where
  totalLent : ℚ
  items : List SplitItem
  dateLent : String
  splitType : SplitType
deriving DecidableEq

inductive TxStatus
  | verified
  | potential_duplicate
  | needs_review
deriving DecidableEq

structure Transaction where
  id : String
  date : ℤ
  amount : ℚ
  originalDescription : String
  enhancedDescription : String
  category : String
  tags : List String
  source : String
  accountId : Option String
  isExpense : Bool
  status : TxStatus
  confidence : ℚ
  isReviewed : Bool
  splitDetails : Option SplitDetails
deriving DecidableEq

inductive RuleField
  | originalDescription
  | amount
  | enhancedDescription
deriving DecidableEq

inductive RuleOp
  | contains
  | equals
  | starts_with
  | greater_than
  | less_than
deriving DecidableEq

structure RuleCriteria where
  field : RuleField
  operator : RuleOp
  value : String
deriving DecidableEq

structure RuleActions where
  renameTo : Option String
  setCategory : Option String
  addTags : Option (List String)
deriving DecidableEq

structure Rule where
  id : String
  name : String
  isActive : Bool
  criteria : RuleCriteria
  actions : RuleActions
deriving DecidableEq

/-! ## RuleEngine (App.tsx, applyRulesToTransaction) -/

/-- A JS value flowing through the rule comparison: either a (lower-cased)
string or a number; `num none` stands for `NaN`. -/
inductive JsVal
  | str (s : String)
  | num (q : Option ℚ)

/-- Model of JS `String(v)`.  JS renders floats by their shortest decimal
round-trip form, which is not representable exactly on ℚ; it is modelled here
by the canonical rational rendering (integers agree exactly with JS).  No
claim below depends on this rendering. -/
def jsValToString : JsVal → String
  | .str s => s
  | .num none => "NaN"
  | .num (some q) => if q.den = 1 then toString q.num else toString q

/-- Model of `a.includes(b)` on strings. -/
def jsIncludes (a b : String) : Bool := decide (b.toList <:+: a.toList)

/-- JS `>` on the operand pairs that can occur: numbers compare numerically
(`NaN` comparisons are false), strings compare lexicographically. -/
def jsGt : JsVal → JsVal → Bool
  | .num (some a), .num (some b) => decide (a > b)
  | .num _, .num _ => false
  | .str a, .str b => decide (b < a)
  | _, _ => false

/-- JS `<` on the operand pairs that can occur. -/
def jsLt : JsVal → JsVal → Bool
  | .num (some a), .num (some b) => decide (a < b)
  | .num _, .num _ => false
  | .str a, .str b => decide (a < b)
  | _, _ => false

/-- The string field selected by a rule criterion (the `amount` case is
guarded away by the caller). -/
def Transaction.fieldString (tx : Transaction) : RuleField → String
  | .originalDescription => tx.originalDescription
  | .enhancedDescription => tx.enhancedDescription
  | .amount => ""

/-- The `isMatch` computation of `applyRulesToTransaction` for one rule. -/
def ruleMatches (rule : Rule) (tx : Transaction) : Bool :=
  let valToCheck : JsVal :=
    if rule.criteria.field = .amount then .num (some tx.amount)
    else .str (tx.fieldString rule.criteria.field).toLower
  let criterionVal : JsVal :=
    if rule.criteria.field = .amount then .num (jsParseFloat rule.criteria.value)
    else .str rule.criteria.value.toLower
  match rule.criteria.operator with
  | .contains => jsIncludes (jsValToString valToCheck) (jsValToString criterionVal)
  | .equals => jsValToString valToCheck == jsValToString criterionVal
  | .starts_with => (jsValToString valToCheck).startsWith (jsValToString criterionVal)
  | .greater_than => jsGt valToCheck criterionVal
  | .less_than => jsLt valToCheck criterionVal

/-- The action block of `applyRulesToTransaction` (run when a rule matched).
`if (rule.actions.renameTo)` is a JS truthiness test, so an empty string does
not rename; `addTags` is an array, which is truthy even when empty. -/
def applyRuleActions (rule : Rule) (tx : Transaction) : Transaction :=
  let tx1 := match rule.actions.renameTo with
    | some s => if s = "" then tx else { tx with enhancedDescription := s }
    | none => tx
  let tx2 := match rule.actions.setCategory with
    | some c => if c = "" then tx1 else { tx1 with category := c }
    | none => tx1
  let tx3 := match rule.actions.addTags with
    | some ts => { tx2 with tags := jsAddTags tx2.tags ts }
    | none => tx2
  { tx3 with isReviewed := true, confidence := 100, status := .verified }

/-- One iteration of the rule loop. -/
def applyRule (tx : Transaction) (rule : Rule) : Transaction :=
  if ruleMatches rule tx then applyRuleActions rule tx else tx

/-- `applyRulesToTransaction` from App.tsx: the active rules are applied in
list order to an accumulating copy of the transaction. -/
def applyRulesToTransaction (tx : Transaction) (rulesList : List Rule) : Transaction :=
  (rulesList.filter (fun r => r.isActive)).foldl applyRule tx

/-! ## DuplicateDetector (App.tsx, handleTransactionsParsed) -/

def msPerDay : ℚ := 1000 * 60 * 60 * 24

/-- The duplicate test of `handleTransactionsParsed`: amounts within 0.01 and
dates at most one day apart (`Math.ceil` of the millisecond distance divided
by a day). -/
def isPotentialDuplicate (existing incoming : Transaction) : Bool :=
  let amountMatch := decide (|existing.amount - incoming.amount| < 1/100)
  let diffTime : ℚ := |(incoming.date : ℚ) * msPerDay - (existing.date : ℚ) * msPerDay|
  let diffDays : ℤ := ⌈diffTime / msPerDay⌉
  let dateMatch := decide (diffDays ≤ 1)
  amountMatch && dateMatch

/-- `transactions.find(existing => ...)` from `handleTransactionsParsed`. -/
def findPotentialMatch (transactions : List Transaction) (incomingTx : Transaction) :
    Option Transaction :=
  transactions.find? (fun existing => isPotentialDuplicate existing incomingTx)

/-! ## Batched updates (JS `Map<string, Transaction>`) -/

/-- An insertion-ordered map from transaction id to transaction. -/
abbrev UpdatesMap := List (String × Transaction)

/-- `Map.get`. -/
def mapGet (m : UpdatesMap) (k : String) : Option Transaction :=
  (m.find? (fun p => p.1 == k)).map Prod.snd

/-- `Map.set`: replaces in place when the key is present, otherwise appends. -/
def mapSet (m : UpdatesMap) (k : String) (v : Transaction) : UpdatesMap :=
  if (m.find? (fun p => p.1 == k)).isSome then
    m.map (fun p => if p.1 == k then (k, v) else p)
  else m ++ [(k, v)]

/-- `Array.from(map.values())`. -/
def mapValues (m : UpdatesMap) : List Transaction := m.map Prod.snd

/-- `handleUpdateTransaction` from App.tsx: an empty update batch is a no-op;
otherwise every ledger transaction is replaced by its update when one with
the same id exists.  `new Map(entries)` keeps the last entry for a repeated
key, hence the lookup in the reversed update list. -/
def handleUpdateTransaction (prev updates : List Transaction) : List Transaction :=
  if updates.length = 0 then prev
  else prev.map (fun t => (updates.reverse.find? (fun u => u.id == t.id)).getD t)

/-! ## SplitLedger (TransactionList.tsx) -/

structure SplitParticipant where
  id : String
  name : String
  amount : ℚ
  isSelected : Bool
  shares : ℚ
deriving DecidableEq

/-- Derived modal state: the number of selected participants. -/
def selectedCount (ps : List SplitParticipant) : ℕ :=
  (ps.filter (fun p => p.isSelected)).length

/-- Derived modal state: the per-person amount in `equal` mode. -/
def splitAmount (lendingTx : Transaction) (ps : List SplitParticipant) : ℚ :=
  if 0 < selectedCount ps then lendingTx.amount / (selectedCount ps : ℚ) else 0

/-- Derived modal state: the sum of non-owner exact amounts. -/
def totalAllocatedExact (ps : List SplitParticipant) : ℚ :=
  ((ps.filter (fun p => p.id ≠ "user")).map (fun p => p.amount)).sum

/-- Derived modal state: the owner's implied remainder in `exact` mode. -/
def remainingExact (lendingTx : Transaction) (ps : List SplitParticipant) : ℚ :=
  lendingTx.amount - totalAllocatedExact ps

/-- Derived modal state: total share weight (the owner included). -/
def totalShares (ps : List SplitParticipant) : ℚ :=
  (ps.map (fun p => p.shares)).sum

/-- Derived modal state: the value of one share. -/
def shareUnitValue (lendingTx : Transaction) (ps : List SplitParticipant) : ℚ :=
  if 0 < totalShares ps then lendingTx.amount / totalShares ps else 0

/-- Capping the first split item carrying the given person's name back down
to its own amount and marking it settled (the mutation performed on a sweep
source inside `sweepCreditForPerson`). -/
def capPersonItem (personName : String) : List SplitItem → List SplitItem
  | [] => []
  | i :: rest =>
    if i.name == personName then
      { i with paidAmount := some i.amount, isSettled := true } :: rest
    else i :: capPersonItem personName rest

/-- One step of the `transactions.forEach` loop of `sweepCreditForPerson`,
threading the accumulated credit and the batched-update map.  The JS clone
`{ ...tx, splitDetails: { ...tx.splitDetails, items: [...] } }` is
value-identical to `tx` and is modelled as `tx` itself. -/
def sweepStep (lendingTxId personName : String) (acc : ℚ × UpdatesMap)
    (tx : Transaction) : ℚ × UpdatesMap :=
  if tx.id = lendingTxId then acc
  else match tx.splitDetails with
  | none => acc
  | some sd =>
    match sd.items.find? (fun i => i.name == personName) with
    | none => acc
    | some item =>
      let paid := item.paidAmount.getD 0
      let surplus := paid - item.amount
      if surplus > 1/100 then
        let txToUpdate := (mapGet acc.2 tx.id).getD tx
        let txToUpdate' := match txToUpdate.splitDetails with
          | some sd2 =>
            { txToUpdate with
              splitDetails := some { sd2 with items := capPersonItem personName sd2.items } }
          | none => txToUpdate
        (acc.1 + surplus, mapSet acc.2 tx.id txToUpdate')
      else acc

/-- `sweepCreditForPerson` from `handleLendSave`: scans every other
transaction for a surplus (`paidAmount` exceeding `amount` by more than
0.01) on an item carrying the person's name, withdraws each surplus into the
returned credit, and records the capped source transactions in the update
map. -/
def sweepCreditForPerson (transactions : List Transaction) (lendingTxId : String)
    (updatesMap : UpdatesMap) (personName : String) : ℚ × UpdatesMap :=
  transactions.foldl (sweepStep lendingTxId personName) (0, updatesMap)

/-- `createItem` from `handleLendSave`: builds the split item for one
participant, preserving this transaction's existing payment history and
adding the credit swept from other transactions.  `today` models
`new Date().toISOString().split('T')[0]`. -/
def createItem (transactions : List Transaction) (lendingTx : Transaction)
    (today : String) (updatesMap : UpdatesMap) (p : SplitParticipant)
    (amount : ℚ) : SplitItem × UpdatesMap :=
  let formattedAmount := round2 amount
  let existingItem :=
    lendingTx.splitDetails.bind (fun sd => sd.items.find? (fun i => i.id == p.id))
  let paidAmount0 := (existingItem.bind (fun i => i.paidAmount)).getD 0
  let payments := (existingItem.bind (fun i => i.payments)).getD []
  let swept := sweepCreditForPerson transactions lendingTx.id updatesMap p.name
  let paidAmount := paidAmount0 + swept.1
  let isSettled := decide (paidAmount ≥ formattedAmount - 1/100)
  let dateSettled :=
    if isSettled && !((existingItem.map (fun i => i.isSettled)).getD false) then some today
    else existingItem.bind (fun i => i.dateSettled)
  ({ id := p.id, name := p.name, amount := formattedAmount,
     paidAmount := some paidAmount, isSettled := isSettled,
     dateSettled := dateSettled, payments := some payments }, swept.2)

/-- The mode-dependent item-building block of `handleLendSave`: produces the
item list, the accumulated (unrounded) `totalLent`, and the update map
filled by the credit sweeps. -/
def buildItems (transactions : List Transaction) (lendingTx : Transaction)
    (today : String) (splitMode : SplitType) (participants : List SplitParticipant) :
    List SplitItem × ℚ × UpdatesMap :=
  match splitMode with
  | .equal =>
    (participants.filter (fun p => p.id ≠ "user" ∧ p.isSelected)).foldl
      (fun acc p =>
        let r := createItem transactions lendingTx today acc.2.2 p
          (splitAmount lendingTx participants)
        (acc.1 ++ [r.1], acc.2.1 + splitAmount lendingTx participants, r.2))
      ([], 0, [])
  | .shares =>
    (participants.filter (fun p => p.id ≠ "user")).foldl
      (fun acc p =>
        let amount := p.shares * shareUnitValue lendingTx participants
        if amount > 0 then
          let r := createItem transactions lendingTx today acc.2.2 p amount
          (acc.1 ++ [r.1], acc.2.1 + amount, r.2)
        else acc)
      ([], 0, [])
  | .exact =>
    (participants.filter (fun p => p.id ≠ "user")).foldl
      (fun acc p =>
        if p.amount > 0 then
          let r := createItem transactions lendingTx today acc.2.2 p p.amount
          (acc.1 ++ [r.1], acc.2.1 + p.amount, r.2)
        else acc)
      ([], 0, [])

/-- The `equal`-mode loop body of `buildItems`, named for reasoning; it is
definitionally the lambda in `buildItems`. -/
def equalStep (txs : List Transaction) (tx : Transaction) (today : String) (s : ℚ)
    (acc : List SplitItem × ℚ × UpdatesMap) (p : SplitParticipant) :
    List SplitItem × ℚ × UpdatesMap :=
  let r := createItem txs tx today acc.2.2 p s
  (acc.1 ++ [r.1], acc.2.1 + s, r.2)

/-- The guarded loop body shared by the `exact` and `shares` modes of
`buildItems` (`g` is the participant's unrounded amount); definitionally the
lambdas in `buildItems`. -/
def guardedStep (txs : List Transaction) (tx : Transaction) (today : String)
    (g : SplitParticipant → ℚ) (acc : List SplitItem × ℚ × UpdatesMap)
    (p : SplitParticipant) : List SplitItem × ℚ × UpdatesMap :=
  if g p > 0 then
    let r := createItem txs tx today acc.2.2 p (g p)
    (acc.1 ++ [r.1], acc.2.1 + g p, r.2)
  else acc

/-- `handleLendSave` from TransactionList.tsx: rebuilds the split of the
current transaction, sweeping credits from other transactions, and returns
the batched list of all mutated transactions (the sweep sources followed by
the edited transaction). -/
def handleLendSave (transactions : List Transaction) (lendingTx : Transaction)
    (splitMode : SplitType) (participants : List SplitParticipant)
    (today : String) : List Transaction :=
  let built := buildItems transactions lendingTx today splitMode participants
  let items := built.1
  let totalLent := built.2.1
  let updatesMap := built.2.2
  let updatedCurrentTx : Transaction :=
    { lendingTx with
      status := .verified
      isReviewed := true
      splitDetails :=
        if items.length = 0 then none
        else some
          { totalLent := round2 totalLent
            items := items
            splitType := splitMode
            dateLent := jsStrOrElse (lendingTx.splitDetails.map (fun sd => sd.dateLent)) today } }
  mapValues (mapSet updatesMap lendingTx.id updatedCurrentTx)

/-- The save button's `disabled` predicate in the split modal. -/
def lendSaveDisabled (lendingTx : Transaction) (splitMode : SplitType)
    (participants : List SplitParticipant) : Bool :=
  decide (splitMode = .exact) &&
    decide (|remainingExact lendingTx participants| > 1/100) &&
    decide (remainingExact lendingTx participants < 0)

/-- The save boundary: a disabled button means `handleLendSave` cannot run
and no transaction state changes. -/
def attemptLendSave (transactions : List Transaction) (lendingTx : Transaction)
    (splitMode : SplitType) (participants : List SplitParticipant)
    (today : String) : Option (List Transaction) :=
  if lendSaveDisabled lendingTx splitMode participants then none
  else some (handleLendSave transactions lendingTx splitMode participants today)

/-! ## SettlementAllocator (LendingDashboard.tsx) -/

/-- `handleSettleItem`'s per-item mapping: toggles the settled state of the
item with the given id.  `today` models the date stamp and `now`/`payId` the
payment timestamp and generated id. -/
def settleToggleItem (today now payId itemId : String) (item : SplitItem) : SplitItem :=
  if item.id == itemId then
    let isSettling := !item.isSettled
    let newPaidAmount := if isSettling then item.amount else 0
    let payments0 := item.payments.getD []
    let payments :=
      if isSettling then
        let amountPaid := item.amount - item.paidAmount.getD 0
        if amountPaid > 0 then payments0 ++ [⟨payId, now, amountPaid⟩] else payments0
      else []
    { item with
      isSettled := isSettling
      paidAmount := some newPaidAmount
      dateSettled := if isSettling then some today else none
      payments := some payments }
  else item

/-- `handleSettleItem` from LendingDashboard.tsx. -/
def handleSettleItem (today now payId : String) (tx : Transaction)
    (itemId : String) : Transaction :=
  match tx.splitDetails with
  | none => tx
  | some sd =>
    { tx with splitDetails := some { sd with items := sd.items.map (settleToggleItem today now payId itemId) } }

/-- The descending-date comparison used by `personHistory`'s stable sort
(`(a, b) => b.tx.date - a.tx.date`). -/
def histLE (x y : Transaction × SplitItem) : Prop := y.1.date ≤ x.1.date

instance : DecidableRel histLE := fun x y => inferInstanceAs (Decidable (y.1.date ≤ x.1.date))

instance : IsTotal (Transaction × SplitItem) histLE :=
  ⟨fun x y => (le_total y.1.date x.1.date).imp (fun h => h) (fun h => h)⟩

instance : IsTrans (Transaction × SplitItem) histLE :=
  ⟨fun _ _ _ h1 h2 => le_trans h2 h1⟩

/-- `t.splitDetails?.items.some(i => i.name === person)`. -/
def hasItemForPerson (person : String) (t : Transaction) : Bool :=
  match t.splitDetails with
  | some sd => sd.items.any (fun i => i.name == person)
  | none => false

/-- The first split item of a transaction carrying the person's name. -/
def personItemOf (person : String) (t : Transaction) : Option SplitItem :=
  t.splitDetails.bind (fun sd => sd.items.find? (fun i => i.name == person))

/-- `personHistory` from LendingDashboard.tsx: the person's (transaction,
item) pairs, sorted by transaction date descending (newest first).  The JS
sort is stable; `List.insertionSort` with `histLE` is the same stable sort.
The filter-then-map-with-assertion of the source is modelled as a
`filterMap` (the filter guarantees that the lookup succeeds). -/
def personHistory (transactions : List Transaction) (person : String) :
    List (Transaction × SplitItem) :=
  List.insertionSort histLE
    ((transactions.filter (hasItemForPerson person)).filterMap
      (fun t => (personItemOf person t).map (fun i => (t, i))))

/-- The mutation applied to the paid item inside `handleBulkSettle`'s loop:
record the payment, update `paidAmount`, recompute `isSettled` and stamp
`dateSettled` on a fresh settle. -/
def bulkPayItem (now payId today : String) (newPaidAmount : ℚ) (isFullyPaid : Bool)
    (payThisTx : ℚ) (cur : SplitItem) : SplitItem :=
  { cur with
    paidAmount := some newPaidAmount
    isSettled := isFullyPaid
    dateSettled :=
      if isFullyPaid && jsStrFalsy cur.dateSettled then some today else cur.dateSettled
    payments := some ((cur.payments.getD []) ++ [⟨payId, now, payThisTx⟩]) }

/-- Replace the first item with the given id (`findIndex` + assignment). -/
def updateFirstById (itemId : String) (f : SplitItem → SplitItem) :
    List SplitItem → List SplitItem
  | [] => []
  | i :: rest => if i.id == itemId then f i :: rest else i :: updateFirstById itemId f rest

/-- The `for ... of relevantHistory` loop of `handleBulkSettle`: walks the
person's items oldest first, paying `min(remaining, outstanding)` on each,
stops once at most 0.009 remains, and dumps the whole remainder on the item
of the most recent transaction. -/
def bulkLoop (mostRecentId now payId today : String) :
    List (Transaction × SplitItem) → ℚ → UpdatesMap → ℚ × UpdatesMap
  | [], remaining, updatesMap => (remaining, updatesMap)
  | (tx, item) :: rest, remaining, updatesMap =>
    if remaining ≤ 9/1000 then (remaining, updatesMap)
    else
      let itemAmount := item.amount
      let alreadyPaid := item.paidAmount.getD 0
      let currentOwed := max 0 (itemAmount - alreadyPaid)
      let pay0 := if currentOwed > 0 then min remaining currentOwed else 0
      let payThisTx := if tx.id = mostRecentId ∧ remaining > pay0 then remaining else pay0
      if payThisTx > 0 then
        let newPaidAmount := alreadyPaid + payThisTx
        let isFullyPaid := decide (newPaidAmount ≥ itemAmount - 1/100)
        let txToUpdate := (mapGet updatesMap tx.id).getD tx
        let txToUpdate' := match txToUpdate.splitDetails with
          | some sd =>
            { txToUpdate with
              splitDetails := some { sd with
                items := updateFirstById item.id
                  (bulkPayItem now payId today newPaidAmount isFullyPaid payThisTx) sd.items } }
          | none => txToUpdate
        bulkLoop mostRecentId now payId today rest (remaining - payThisTx)
          (mapSet updatesMap tx.id txToUpdate')
      else
        bulkLoop mostRecentId now payId today rest remaining updatesMap

/-- The transaction produced by one paying iteration of `handleBulkSettle`'s
loop; definitionally the body of `bulkLoop`'s paying branch. -/
def bulkApplyPay (now payId today : String) (um : UpdatesMap) (tx : Transaction)
    (item : SplitItem) (pay : ℚ) : Transaction :=
  let alreadyPaid := item.paidAmount.getD 0
  let newPaidAmount := alreadyPaid + pay
  let isFullyPaid := decide (newPaidAmount ≥ item.amount - 1/100)
  let txToUpdate := (mapGet um tx.id).getD tx
  match txToUpdate.splitDetails with
  | some sd =>
    { txToUpdate with
      splitDetails := some { sd with
        items := updateFirstById item.id
          (bulkPayItem now payId today newPaidAmount isFullyPaid pay) sd.items } }
  | none => txToUpdate

/-- `handleBulkSettle` from LendingDashboard.tsx, returning the batch of
mutated transactions.  A non-positive (or unparseable) amount is an early
return with no update; `personHistory[0].tx.id` is only dereferenced inside
the loop, so the `""` default is never consulted when the history is
empty. -/
def handleBulkSettle (transactions : List Transaction) (selectedPerson : String)
    (amountToPay : ℚ) (now payId today : String) : List Transaction :=
  if amountToPay ≤ 0 then []
  else
    let hist := personHistory transactions selectedPerson
    let relevantHistory := hist.reverse
    let mostRecentId := (hist.head?.map (fun e => e.1.id)).getD ""
    mapValues (bulkLoop mostRecentId now payId today relevantHistory amountToPay []).2

/-! ## Ledger money accounting -/

/-- `handleUpdateTransaction` specialised to a batched update map (the
`length = 0` early return coincides with the lookup producing no hit). -/
def applyUpdatesFn (txs : List Transaction) (um : UpdatesMap) : List Transaction :=
  txs.map (fun t => ((mapValues um).reverse.find? (fun u => u.id == t.id)).getD t)

/-- The recorded repayment on one split item. -/
def itemPaid (i : SplitItem) : ℚ := i.paidAmount.getD 0

/-- Total `paidAmount` recorded on one transaction. -/
def txPaidSum (t : Transaction) : ℚ :=
  match t.splitDetails with
  | some sd => (sd.items.map itemPaid).sum
  | none => 0

/-- Total `paidAmount` recorded across a ledger. -/
def ledgerPaidSum (txs : List Transaction) : ℚ := (txs.map txPaidSum).sum

/-! ## Spec-side definitions

These restate parts of the specification in its own words, to be compared
with the definitions embedded from the source. -/

/-- From the spec, §4.2: a duplicate match requires an amount distance under
0.01 and an absolute day distance of at most 1 (inclusive). -/
def SpecDuplicateMatch (existing incoming : Transaction) : Prop :=
  |existing.amount - incoming.amount| < 1/100 ∧ |incoming.date - existing.date| ≤ 1

instance (e i : Transaction) : Decidable (SpecDuplicateMatch e i) := by
  unfold SpecDuplicateMatch
  infer_instance

/-- The reset state of an un-settled split item (spec §8.7). -/
def unsettledReset (i : SplitItem) : SplitItem :=
  { i with isSettled := false, paidAmount := some 0, dateSettled := none, payments := some [] }

/-- The sweep qualification test actually performed by the code: the first
item carrying the person's name on a different transaction must have a
surplus strictly greater than 0.01 (the spec's §4.4 asks only for
`paidAmount > amount`). -/
def sweepQualifies (lendingTxId personName : String) (tx : Transaction) : Bool :=
  if tx.id = lendingTxId then false
  else match tx.splitDetails with
  | none => false
  | some sd =>
    match sd.items.find? (fun i => i.name == personName) with
    | none => false
    | some item => decide (item.paidAmount.getD 0 - item.amount > 1/100)

/-- The surplus withdrawn from one transaction by the sweep (0 when the
transaction does not qualify). -/
def sweepSurplusOf (lendingTxId personName : String) (tx : Transaction) : ℚ :=
  if sweepQualifies lendingTxId personName tx then
    match tx.splitDetails with
    | none => 0
    | some sd =>
      match sd.items.find? (fun i => i.name == personName) with
      | none => 0
      | some item => item.paidAmount.getD 0 - item.amount
  else 0

/-- From the spec, §4.4: a sweep source has its credit item's `paidAmount`
capped back down to its own `amount` and is marked settled. -/
def capCreditTx (personName : String) (tx : Transaction) : Transaction :=
  match tx.splitDetails with
  | some sd => { tx with splitDetails := some { sd with items := capPersonItem personName sd.items } }
  | none => tx

/-! ## Concrete fixtures -/

/-- A ledger transaction with the given id, date, amount and split. -/
def mkTx (i : String) (d : ℤ) (a : ℚ) (sd : Option SplitDetails) : Transaction :=
  { id := i, date := d, amount := a, originalDescription := "UBER TRIP", enhancedDescription := "Uber Ride",
    category := "Travel", tags := [], source := "Chase", accountId := none, isExpense := true,
    status := .verified, confidence := 95, isReviewed := false, splitDetails := sd }

/-- A split item for person "P". -/
def itemP (iid : String) (amt : ℚ) (paid : Option ℚ) (settled : Bool) : SplitItem :=
  { id := iid, name := "P", amount := amt, paidAmount := paid, isSettled := settled,
    dateSettled := none, payments := some [] }

/-- A split-details record with the given total and items. -/
def mkSD (tl : ℚ) (its : List SplitItem) : SplitDetails :=
  { totalLent := tl, items := its, dateLent := "d", splitType := .exact }

/-- A split item carrying an arbitrary name. -/
def itemNamed (iid nm : String) (amt : ℚ) (paid : Option ℚ) (settled : Bool) : SplitItem :=
  { id := iid, name := nm, amount := amt, paidAmount := paid, isSettled := settled,
    dateSettled := none, payments := some [] }

/-- C2/C3/C4 scenario: the older $10 item (day 1). -/
def bulkT1 : Transaction :=
  mkTx "t1" 1 100 (some (mkSD 10 [itemP "i1" 10 (some 0) false]))

/-- C2/C3/C4 scenario: the newer $15 item (day 2). -/
def bulkT2 : Transaction :=
  mkTx "t2" 2 100 (some (mkSD 15 [itemP "i2" 15 (some 0) false]))

/-- C3 counterexample scenario: the newer transaction's item is already
settled ($5 owed, $5 paid). -/
def bulkT2Settled : Transaction :=
  mkTx "t2" 2 100 (some (mkSD 5 [itemP "i2" 5 (some 5) true]))

/-- C1 scenario: transaction T1 where Alex holds a $5 credit
(amount 20, paidAmount 25). -/
def alexT1 : Transaction :=
  mkTx "t1" 1 40 (some (mkSD 20 [itemNamed "a1" "Alex" 20 (some 25) true]))

/-- C1 counterexample scenario: Alex's `paidAmount` exceeds `amount` by only
half a cent (20.005 > 20). -/
def alexT1Eps : Transaction :=
  mkTx "t1" 1 40 (some (mkSD 20 [itemNamed "a1" "Alex" 20 (some (4001/200)) true]))

/-- C1 scenario: transaction T2 being split, with no split yet. -/
def alexT2 : Transaction := mkTx "t2" 2 40 none

/-- C1 scenario: the split modal's participants — the owner plus Alex at an
exact amount of $5. -/
def alexPs : List SplitParticipant :=
  [{ id := "user", name := "You", amount := 35, isSelected := true, shares := 1 },
   { id := "p2", name := "Alex", amount := 5, isSelected := true, shares := 1 }]

/-- C7 scenarios: a $100 bill (counterexample) and a $90 bill (the spec's own
example), split equally among three selected non-owner participants. -/
def c7Tx100 : Transaction := mkTx "t0" 1 100 none

def c7Tx90 : Transaction := mkTx "t0" 1 90 none

def c7Ps : List SplitParticipant :=
  [{ id := "user", name := "You", amount := 0, isSelected := false, shares := 1 },
   { id := "pa", name := "A", amount := 0, isSelected := true, shares := 1 },
   { id := "pb", name := "B", amount := 0, isSelected := true, shares := 1 },
   { id := "pc", name := "C", amount := 0, isSelected := true, shares := 1 }]

/-- C5 scenario: existing ledger entry, $12.50 on day 0
(modelling "2023-10-20"). -/
def c5Existing : Transaction := mkTx "tx-5" 0 (25/2) none

/-- C5 scenario: incoming record of the same amount one day later. -/
def c5IncomingOneDay : Transaction := mkTx "in1" 1 (25/2) none

/-- C5 scenario: incoming record of the same amount two days later. -/
def c5IncomingTwoDays : Transaction := mkTx "in2" 2 (25/2) none

/-- C6 witness fixtures: a transaction and a matching active rule. -/
def c6Tx : Transaction := mkTx "tx-2" 0 15 none

def c6Rule : Rule :=
  { id := "rule-1", name := "Auto-tag Uber", isActive := true,
    criteria := { field := .originalDescription, operator := .contains, value := "UBER" },
    actions := { renameTo := some "Uber", setCategory := some "Travel", addTags := some ["Rideshare"] } }

/-- C8 counterexample scenario: a $10 bill with exact amounts summing to
$10.005 (remainder −0.005, negative but within the 0.01 epsilon). -/
def c8Tx : Transaction := mkTx "t0" 1 10 none

def c8Ps : List SplitParticipant :=
  [{ id := "user", name := "You", amount := 0, isSelected := true, shares := 1 },
   { id := "pa", name := "A", amount := 2001/200, isSelected := true, shares := 1 }]

/-- C9 witness fixture: a settled item with recorded history. -/
def c9Item : SplitItem :=
  { id := "i1", name := "P", amount := 10, paidAmount := some 10, isSettled := true,
    dateSettled := some "2024-01-01", payments := some [⟨"pay1", "now1", 10⟩] }

def c9Tx : Transaction := mkTx "t1" 1 100 (some (mkSD 10 [c9Item]))

/-- C10 witness fixture: participants producing an empty item list in every
mode (no non-owner selected, all non-owner exact amounts and shares zero). -/
def c10Ps : List SplitParticipant :=
  [{ id := "user", name := "You", amount := 10, isSelected := true, shares := 1 },
   { id := "pa", name := "A", amount := 0, isSelected := false, shares := 0 }]

def c10Tx : Transaction := mkTx "t0" 1 10 none

/-! ## Helper lemmas: JS `Set` union -/

theorem mem_jsSetInsert {a t : String} {l : List String} :
    a ∈ jsSetInsert l t ↔ a ∈ l ∨ a = t := by
  unfold jsSetInsert
  split
  case isTrue h =>
    constructor
    · exact Or.inl
    · rintro (h1 | rfl)
      · exact h1
      · exact h
  case isFalse h => simp [List.mem_append]

theorem mem_foldl_jsSetInsert_of_mem {a : String} :
    ∀ (ts L : List String), a ∈ L → a ∈ ts.foldl jsSetInsert L
  | [], _, h => h
  | _ :: ts, _, h => mem_foldl_jsSetInsert_of_mem ts _ (mem_jsSetInsert.mpr (Or.inl h))

theorem mem_foldl_jsSetInsert_of_mem_list {a : String} :
    ∀ (ts L : List String), a ∈ ts → a ∈ ts.foldl jsSetInsert L
  | t :: ts, L, h => by
    rcases List.mem_cons.mp h with rfl | h1
    · exact mem_foldl_jsSetInsert_of_mem ts _ (mem_jsSetInsert.mpr (Or.inr rfl))
    · exact mem_foldl_jsSetInsert_of_mem_list ts _ h1

theorem nodup_jsSetInsert {l : List String} (h : l.Nodup) (t : String) :
    (jsSetInsert l t).Nodup := by
  unfold jsSetInsert
  split
  case isTrue _ => exact h
  case isFalse ht => simp [List.nodup_append, h, ht]

theorem nodup_foldl_jsSetInsert : ∀ (ts L : List String), L.Nodup → (ts.foldl jsSetInsert L).Nodup
  | [], _, h => h
  | t :: ts, _, h => nodup_foldl_jsSetInsert ts _ (nodup_jsSetInsert h t)

theorem nodup_jsSetOfList (l : List String) : (jsSetOfList l).Nodup :=
  nodup_foldl_jsSetInsert l [] List.nodup_nil

theorem jsSetInsert_of_mem {l : List String} {t : String} (h : t ∈ l) :
    jsSetInsert l t = l := if_pos h

theorem foldl_jsSetInsert_of_subset :
    ∀ (ts L : List String), (∀ t ∈ ts, t ∈ L) → ts.foldl jsSetInsert L = L
  | [], _, _ => rfl
  | t :: ts, L, h => by
    rw [List.foldl_cons, jsSetInsert_of_mem (h t (List.mem_cons_self t ts))]
    exact foldl_jsSetInsert_of_subset ts L (fun u hu => h u (List.mem_cons_of_mem t hu))

theorem foldl_jsSetInsert_append_of_nodup :
    ∀ (l L : List String), l.Nodup → (∀ a ∈ l, a ∉ L) → l.foldl jsSetInsert L = L ++ l
  | [], L, _, _ => by simp
  | a :: l, L, hl, hdisj => by
    rw [List.foldl_cons]
    have ha : a ∉ L := hdisj a (List.mem_cons_self a l)
    rw [show jsSetInsert L a = L ++ [a] from if_neg ha]
    rw [foldl_jsSetInsert_append_of_nodup l (L ++ [a]) (List.Nodup.of_cons hl) ?_]
    · simp
    · intro b hb
      simp only [List.mem_append, List.mem_singleton, not_or]
      refine ⟨hdisj b (List.mem_cons_of_mem a hb), ?_⟩
      rintro rfl
      exact (List.nodup_cons.mp hl).1 hb

theorem jsSetOfList_of_nodup {l : List String} (h : l.Nodup) : jsSetOfList l = l := by
  unfold jsSetOfList
  simpa using foldl_jsSetInsert_append_of_nodup l [] h (by simp)

theorem jsAddTags_idem (tags ts : List String) :
    jsAddTags (jsAddTags tags ts) ts = jsAddTags tags ts := by
  unfold jsAddTags
  have hnd : (ts.foldl jsSetInsert (jsSetOfList tags)).Nodup :=
    nodup_foldl_jsSetInsert ts _ (nodup_jsSetOfList tags)
  rw [jsSetOfList_of_nodup hnd]
  exact foldl_jsSetInsert_of_subset ts _ (fun t ht => mem_foldl_jsSetInsert_of_mem_list ts _ ht)

/-! ## Helper lemmas: rule application -/

theorem applyRuleActions_idem (r : Rule) (tx : Transaction) :
    applyRuleActions r (applyRuleActions r tx) = applyRuleActions r tx := by
  unfold applyRuleActions
  cases hrn : r.actions.renameTo with
  | none =>
    cases hsc : r.actions.setCategory with
    | none =>
      cases hts : r.actions.addTags with
      | none => rfl
      | some ts => simp [jsAddTags_idem]
    | some c =>
      by_cases hc : c = "" <;>
        cases hts : r.actions.addTags with
        | none => simp [hc]
        | some ts => simp [hc, jsAddTags_idem]
  | some s =>
    by_cases hs : s = "" <;>
      cases hsc : r.actions.setCategory with
      | none =>
        cases hts : r.actions.addTags with
        | none => simp [hs]
        | some ts => simp [hs, jsAddTags_idem]
      | some c =>
        by_cases hc : c = "" <;>
          cases hts : r.actions.addTags with
          | none => simp [hs, hc]
          | some ts => simp [hs, hc, jsAddTags_idem]

theorem applyRule_idem (tx : Transaction) (r : Rule) :
    applyRule (applyRule tx r) r = applyRule tx r := by
  unfold applyRule
  cases hm : ruleMatches r tx with
  | false => simp [hm]
  | true =>
    simp only [hm, if_true]
    cases hm2 : ruleMatches r (applyRuleActions r tx) with
    | false => simp [hm2]
    | true => simp [hm2, applyRuleActions_idem]

/-! ## Helper lemmas: first match in a list -/

theorem find?_first_decomp {α : Type} {p : α → Bool} :
    ∀ {l : List α} {a : α}, l.find? p = some a →
      ∃ l1 l2, l = l1 ++ a :: l2 ∧ p a = true ∧ ∀ b ∈ l1, p b = false
  | x :: xs, a, h => by
    cases hpx : p x with
    | true =>
      rw [List.find?_cons_of_pos _ hpx] at h
      cases h
      exact ⟨[], xs, rfl, hpx, by simp⟩
    | false =>
      rw [List.find?_cons_of_neg _ (by simp [hpx])] at h
      obtain ⟨l1, l2, rfl, hpa, hl1⟩ := find?_first_decomp h
      refine ⟨x :: l1, l2, rfl, hpa, ?_⟩
      intro b hb
      rcases List.mem_cons.mp hb with rfl | hb1
      · exact hpx
      · exact hl1 b hb1

/-! ## Helper lemmas: folds that do nothing -/

theorem foldl_fixed {α β : Type} (f : β → α → β) :
    ∀ (l : List α), (∀ a ∈ l, ∀ acc, f acc a = acc) → ∀ acc, l.foldl f acc = acc
  | [], _, _ => rfl
  | a :: l, h, acc => by
    rw [List.foldl_cons, h a (List.mem_cons_self a l) acc]
    exact foldl_fixed f l (fun b hb acc2 => h b (List.mem_cons_of_mem a hb) acc2) acc

/-! ## Helper lemmas: the duplicate test -/

theorem isPotentialDuplicate_iff (e i : Transaction) :
    isPotentialDuplicate e i = true ↔ SpecDuplicateMatch e i := by
  unfold isPotentialDuplicate SpecDuplicateMatch
  have hm : (0:ℚ) < msPerDay := by norm_num [msPerDay]
  have key : (⌈|(i.date : ℚ) * msPerDay - (e.date : ℚ) * msPerDay| / msPerDay⌉ : ℤ)
      = |i.date - e.date| := by
    rw [← sub_mul, abs_mul, abs_of_pos hm, mul_div_assoc, div_self (ne_of_gt hm), mul_one]
    rw [show ((i.date : ℚ) - (e.date : ℚ)) = ((i.date - e.date : ℤ) : ℚ) by push_cast; ring]
    rw [← Int.cast_abs, Int.ceil_intCast]
  simp [Bool.and_eq_true, decide_eq_true_eq, key]

/-! ## Claim theorems -/

section DecideClaims

attribute [local semireducible] Rat.add Rat.mul Rat.inv Rat.sub

/-- C5 (confirmed).  The DuplicateDetector reports a match if and only if
some existing ledger transaction has an amount within 0.01 of the incoming
record's amount and a date at most one day away (inclusive), and it returns
the first such transaction in ledger iteration order; in particular an
existing $12.50 entry matches an equal-amount record dated one day later and
does not match one dated two days later. -/
theorem duplicate_detection_spec :
    (∀ e i, isPotentialDuplicate e i = true ↔ SpecDuplicateMatch e i)
    ∧ (∀ txs i, (findPotentialMatch txs i).isSome = true ↔ ∃ e ∈ txs, SpecDuplicateMatch e i)
    ∧ (∀ txs i e, findPotentialMatch txs i = some e →
        ∃ l1 l2, txs = l1 ++ e :: l2 ∧ SpecDuplicateMatch e i
          ∧ ∀ u ∈ l1, ¬ SpecDuplicateMatch u i)
    ∧ (isPotentialDuplicate c5Existing c5IncomingOneDay = true
        ∧ isPotentialDuplicate c5Existing c5IncomingTwoDays = false) := by
  refine ⟨isPotentialDuplicate_iff, ?_, ?_, by decide⟩
  · intro txs i
    unfold findPotentialMatch
    rw [List.find?_isSome]
    constructor
    · rintro ⟨e, he, hpe⟩
      exact ⟨e, he, (isPotentialDuplicate_iff e i).mp hpe⟩
    · rintro ⟨e, he, hse⟩
      exact ⟨e, he, (isPotentialDuplicate_iff e i).mpr hse⟩
  · intro txs i e h
    obtain ⟨l1, l2, rfl, hpa, hl1⟩ := find?_first_decomp h
    refine ⟨l1, l2, rfl, (isPotentialDuplicate_iff e i).mp hpa, ?_⟩
    intro u hu hs
    have := (isPotentialDuplicate_iff u i).mpr hs
    rw [hl1 u hu] at this
    cases this

/-- C5 witness: the detector fires on the concrete one-day-apart pair. -/
theorem duplicate_detection_spec_witness :
    (findPotentialMatch [c5Existing] c5IncomingOneDay).isSome = true :=
  (duplicate_detection_spec.2.1 [c5Existing] c5IncomingOneDay).mpr
    ⟨c5Existing, by decide, by decide⟩

/-- C6 (confirmed).  Applying a single active rule twice to a transaction
yields the same transaction as applying it once: `addTags` has set
semantics, `renameTo` and `setCategory` are overwrites, and the
reviewed/confidence/status stamps are constant. -/
theorem single_rule_idempotent (tx : Transaction) (r : Rule) (h : r.isActive = true) :
    applyRulesToTransaction (applyRulesToTransaction tx [r]) [r]
      = applyRulesToTransaction tx [r] := by
  unfold applyRulesToTransaction
  simp only [List.filter_cons, h, if_true, List.filter_nil, List.foldl_cons, List.foldl_nil]
  exact applyRule_idem tx r

/-- C6 witness: idempotence at a concrete transaction and active rule. -/
theorem single_rule_idempotent_witness :
    applyRulesToTransaction (applyRulesToTransaction c6Tx [c6Rule]) [c6Rule]
      = applyRulesToTransaction c6Tx [c6Rule] :=
  single_rule_idempotent c6Tx c6Rule rfl

/-- C8 counterexample.  With a $10 bill and exact amounts summing to $10.005
the remainder is negative (−0.005), yet the save is not blocked: the
`disabled` predicate only fires when the remainder is below −0.01, so
`attemptLendSave` succeeds, contradicting the claim that any negative
remainder blocks the save. -/
theorem exact_overallocation_counterexample :
    remainingExact c8Tx c8Ps < 0
      ∧ (attemptLendSave [c8Tx] c8Tx .exact c8Ps "2024-01-01").isSome = true := by
  decide

/-- C8 (amended).  The save boundary rejects a split exactly when the mode is
`exact` and the exact amounts exceed the bill total by more than 0.01 (the
remainder is below −0.01); in that case no transaction state is produced. -/
theorem exact_overallocation_boundary (transactions : List Transaction)
    (lendingTx : Transaction) (splitMode : SplitType) (ps : List SplitParticipant)
    (today : String) :
    attemptLendSave transactions lendingTx splitMode ps today = none
      ↔ splitMode = .exact ∧ remainingExact lendingTx ps < -(1/100) := by
  unfold attemptLendSave lendSaveDisabled
  constructor
  · intro h
    by_cases hb : (decide (splitMode = .exact)
        && decide (|remainingExact lendingTx ps| > 1/100)
        && decide (remainingExact lendingTx ps < 0)) = true
    · simp only [Bool.and_eq_true, decide_eq_true_eq] at hb
      obtain ⟨⟨h1, h2⟩, h3⟩ := hb
      refine ⟨h1, ?_⟩
      rw [abs_of_neg h3] at h2
      linarith
    · rw [if_neg hb] at h
      cases h
  · rintro ⟨h1, h2⟩
    have h3 : remainingExact lendingTx ps < 0 := by linarith
    have h2' : |remainingExact lendingTx ps| > 1/100 := by
      rw [abs_of_neg h3]; linarith
    rw [if_pos]
    simp only [Bool.and_eq_true, decide_eq_true_eq]
    exact ⟨⟨h1, h2'⟩, h3⟩

/-- C8 witness: the boundary does reject a clear over-allocation (a $10 bill
with $12 of exact amounts). -/
theorem exact_overallocation_boundary_witness :
    attemptLendSave [c8Tx] c8Tx .exact
        [⟨"user", "You", 0, true, 1⟩, ⟨"pa", "A", 12, true, 1⟩] "2024-01-01" = none :=
  (exact_overallocation_boundary [c8Tx] c8Tx .exact
    [⟨"user", "You", 0, true, 1⟩, ⟨"pa", "A", 12, true, 1⟩] "2024-01-01").mpr
    ⟨rfl, by decide⟩

/-- C9 (confirmed).  The manual settle toggle, when un-settling a settled
item, resets `paidAmount` to 0, clears the payment history and removes
`dateSettled`; the stamp `dateSettled := today` is placed exactly on the
unsettled-to-settled transition, and items with a different id are
untouched. -/
theorem unsettle_roundtrip (today now payId itemId : String) (tx : Transaction)
    (sd : SplitDetails) (i : SplitItem) (hsd : tx.splitDetails = some sd)
    (hid : i.id = itemId) :
    (i.isSettled = true →
       settleToggleItem today now payId itemId i = unsettledReset i)
    ∧ (i.isSettled = false →
       (settleToggleItem today now payId itemId i).isSettled = true
         ∧ (settleToggleItem today now payId itemId i).dateSettled = some today)
    ∧ (∀ j : SplitItem, j.id ≠ itemId → settleToggleItem today now payId itemId j = j)
    ∧ (handleSettleItem today now payId tx itemId).splitDetails
        = some { sd with items := sd.items.map (settleToggleItem today now payId itemId) } := by
  refine ⟨?_, ?_, ?_, ?_⟩
  · intro hs
    simp [settleToggleItem, unsettledReset, hid, hs]
  · intro hs
    simp [settleToggleItem, hid, hs]
  · intro j hj
    simp [settleToggleItem, hj]
  · simp [handleSettleItem, hsd]

/-- C9 witness: un-settling the concrete settled item wipes its payment
state. -/
theorem unsettle_roundtrip_witness :
    settleToggleItem "2024-02-02" "now2" "pid2" "i1" c9Item = unsettledReset c9Item :=
  (unsettle_roundtrip "2024-02-02" "now2" "pid2" "i1" c9Tx (mkSD 10 [c9Item]) c9Item
    rfl rfl).1 rfl

/-- C10 (confirmed).  A save that produces an empty item list — equal mode
with no non-owner selected, exact mode with all non-owner amounts zero, or
shares mode with all non-owner shares zero — removes `splitDetails`
entirely; only the edited transaction (marked verified and reviewed, with no
split) is committed. -/
theorem empty_split_clears (txs : List Transaction) (tx : Transaction)
    (ps : List SplitParticipant) (today : String) :
    ((∀ p ∈ ps, p.id ≠ "user" → p.isSelected = false) →
       handleLendSave txs tx .equal ps today
         = [{ tx with status := .verified, isReviewed := true, splitDetails := none }])
    ∧ ((∀ p ∈ ps, p.id ≠ "user" → p.amount = 0) →
       handleLendSave txs tx .exact ps today
         = [{ tx with status := .verified, isReviewed := true, splitDetails := none }])
    ∧ ((∀ p ∈ ps, p.id ≠ "user" → p.shares = 0) →
       handleLendSave txs tx .shares ps today
         = [{ tx with status := .verified, isReviewed := true, splitDetails := none }]) := by
  refine ⟨?_, ?_, ?_⟩
  · intro h
    have hb : buildItems txs tx today .equal ps = ([], 0, []) := by
      have hrw : buildItems txs tx today .equal ps
          = (ps.filter (fun p => p.id ≠ "user" ∧ p.isSelected)).foldl
              (fun acc p =>
                let r := createItem txs tx today acc.2.2 p (splitAmount tx ps)
                (acc.1 ++ [r.1], acc.2.1 + splitAmount tx ps, r.2)) ([], 0, []) := rfl
      rw [hrw, List.filter_eq_nil_iff.mpr ?_]
      · rfl
      · intro p hp
        simp only [decide_eq_true_eq, not_and]
        intro hid hsel
        rw [h p hp hid] at hsel
        cases hsel
    simp [handleLendSave, hb, mapSet, mapGet, mapValues, List.find?]
  · intro h
    have hb : buildItems txs tx today .exact ps = ([], 0, []) := by
      have hrw : buildItems txs tx today .exact ps
          = (ps.filter (fun p => p.id ≠ "user")).foldl
              (fun acc p =>
                if p.amount > 0 then
                  let r := createItem txs tx today acc.2.2 p p.amount
                  (acc.1 ++ [r.1], acc.2.1 + p.amount, r.2)
                else acc) ([], 0, []) := rfl
      rw [hrw, foldl_fixed _ _ ?_]
      intro p hp acc
      have hamt : p.amount = 0 := by
        refine h p (List.mem_of_mem_filter hp) ?_
        have := List.of_mem_filter hp
        simpa using this
      rw [if_neg]
      rw [hamt]
      norm_num
    simp [handleLendSave, hb, mapSet, mapGet, mapValues, List.find?]
  · intro h
    have hb : buildItems txs tx today .shares ps = ([], 0, []) := by
      have hrw : buildItems txs tx today .shares ps
          = (ps.filter (fun p => p.id ≠ "user")).foldl
              (fun acc p =>
                let amount := p.shares * shareUnitValue tx ps
                if amount > 0 then
                  let r := createItem txs tx today acc.2.2 p amount
                  (acc.1 ++ [r.1], acc.2.1 + amount, r.2)
                else acc) ([], 0, []) := rfl
      rw [hrw, foldl_fixed _ _ ?_]
      intro p hp acc
      have hsh : p.shares = 0 := by
        refine h p (List.mem_of_mem_filter hp) ?_
        have := List.of_mem_filter hp
        simpa using this
      rw [if_neg]
      rw [hsh]
      norm_num
    simp [handleLendSave, hb, mapSet, mapGet, mapValues, List.find?]

/-- C10 witness: a concrete save with no selected non-owner drops the
split. -/
theorem empty_split_clears_witness :
    handleLendSave [c10Tx] c10Tx .equal c10Ps "2024-01-01"
      = [{ c10Tx with status := .verified, isReviewed := true, splitDetails := none }] :=
  (empty_split_clears [c10Tx] c10Tx c10Ps "2024-01-01").1 (by decide)

/-- C1 counterexample.  With Alex's item on T1 at `amount 20`,
`paidAmount 20.005` (so `paidAmount > amount`), creating a $5 item for Alex
on T2 sweeps nothing: the code requires a surplus strictly above 0.01, so T1
is not in the batch (only T2 is), T1 keeps `paidAmount 20.005`, and T2's new
item starts at `paidAmount 0` — contradicting the claim that every
transaction with `paidAmount` exceeding `amount` has its surplus withdrawn
and transferred. -/
theorem credit_sweep_epsilon_counterexample :
    ((handleLendSave [alexT1Eps, alexT2] alexT2 .exact alexPs "2024-01-01").map
        (fun t => t.id)) = ["t2"]
    ∧ ((handleUpdateTransaction [alexT1Eps, alexT2]
          (handleLendSave [alexT1Eps, alexT2] alexT2 .exact alexPs "2024-01-01")).map
        (fun t => (t.id, t.splitDetails.map (fun sd => sd.items.map itemPaid))))
      = [("t1", some [4001/200]), ("t2", some [0])]
    ∧ (4001/200 : ℚ) > 20 := by decide

/-- C2 counterexample.  For the $10 (older) and $15 (newer) items, a $30
bulk payment leaves $20 when the newer item is reached; the newer item has
outstanding balance $15, so the claimed rule `min(remainingPayment,
outstandingBalance)` would pay $15, but the code pays the entire $20 onto
the most recent transaction's item. -/
theorem waterfall_min_counterexample :
    ((handleUpdateTransaction [bulkT1, bulkT2]
        (handleBulkSettle [bulkT1, bulkT2] "P" 30 "now" "pay" "today")).map
      (fun t => (t.id, t.splitDetails.map (fun sd => sd.items.map itemPaid))))
      = [("t1", some [10]), ("t2", some [20])]
    ∧ (20 : ℚ) ≠ min (30 - 10) 15 := by decide

/-- C3 counterexample.  With an older unsettled $10 item and a newer,
already settled $5 item, a payment of $10.005 pays the $10 debt and then
stops: the remaining $0.005 is at most the 0.009 stop threshold, so it is
never applied to the most recent transaction's item (which stays at
`paidAmount 5`), contradicting the claim that any positive remainder is
applied there in full. -/
theorem overflow_epsilon_counterexample :
    ((handleBulkSettle [bulkT1, bulkT2Settled] "P" (2001/200) "now" "pay" "today").map
        (fun t => t.id)) = ["t1"]
    ∧ ((handleUpdateTransaction [bulkT1, bulkT2Settled]
          (handleBulkSettle [bulkT1, bulkT2Settled] "P" (2001/200) "now" "pay" "today")).map
        (fun t => (t.id, t.splitDetails.map (fun sd => sd.items.map itemPaid))))
      = [("t1", some [10]), ("t2", some [5])]
    ∧ (2001/200 : ℚ) - 10 > 0 := by decide

/-- C4 counterexample.  A positive bulk payment of $0.005 for a person with
an outstanding item changes no `paidAmount` at all (the loop stops
immediately at the 0.009 threshold), so the sum of `paidAmount` deltas is 0,
not the externally supplied $0.005. -/
theorem conservation_counterexample :
    hasItemForPerson "P" bulkT1 = true
    ∧ (0 : ℚ) < 1/200
    ∧ ledgerPaidSum (handleUpdateTransaction [bulkT1]
        (handleBulkSettle [bulkT1] "P" (1/200) "now" "pay" "today"))
        - ledgerPaidSum [bulkT1] = 0
    ∧ (0 : ℚ) ≠ 1/200 := by decide

/-- C7 counterexample.  Splitting $100 equally among three selected
non-owner participants stores item amounts of $33.33 each (their sum is
$99.99), while `totalLent` is the 2-decimal rounding of the unrounded total
(3 × 100/3 = 100), so the stored `totalLent` is not the sum of the stored
item amounts. -/
theorem split_totalLent_counterexample :
    (((handleLendSave [c7Tx100] c7Tx100 .equal c7Ps "2024-01-01").head?.bind
        (fun t => t.splitDetails)).map
      (fun sd => (sd.totalLent, (sd.items.map (fun i => i.amount)).sum)))
      = some (100, 9999/100)
    ∧ (100 : ℚ) ≠ 9999/100 := by decide

end DecideClaims

/-! ## Helper lemmas: the item-building folds -/

theorem buildItems_equal_eq (txs : List Transaction) (tx : Transaction) (today : String)
    (ps : List SplitParticipant) :
    buildItems txs tx today .equal ps
      = (ps.filter (fun p => p.id ≠ "user" ∧ p.isSelected)).foldl
          (equalStep txs tx today (splitAmount tx ps)) ([], 0, []) := rfl

theorem buildItems_exact_eq (txs : List Transaction) (tx : Transaction) (today : String)
    (ps : List SplitParticipant) :
    buildItems txs tx today .exact ps
      = (ps.filter (fun p => p.id ≠ "user")).foldl
          (guardedStep txs tx today (fun p => p.amount)) ([], 0, []) := rfl

theorem buildItems_shares_eq (txs : List Transaction) (tx : Transaction) (today : String)
    (ps : List SplitParticipant) :
    buildItems txs tx today .shares ps
      = (ps.filter (fun p => p.id ≠ "user")).foldl
          (guardedStep txs tx today (fun p => p.shares * shareUnitValue tx ps)) ([], 0, []) := rfl

theorem createItem_amount (txs : List Transaction) (tx : Transaction) (today : String)
    (um : UpdatesMap) (p : SplitParticipant) (a : ℚ) :
    (createItem txs tx today um p a).1.amount = round2 a := rfl

theorem equalFold_spec (txs : List Transaction) (tx : Transaction) (today : String) (s : ℚ) :
    ∀ (l : List SplitParticipant) (acc : List SplitItem × ℚ × UpdatesMap),
      ((l.foldl (equalStep txs tx today s) acc).1.map (fun i => i.amount)
         = acc.1.map (fun i => i.amount) ++ List.replicate l.length (round2 s))
      ∧ (l.foldl (equalStep txs tx today s) acc).2.1 = acc.2.1 + l.length * s
  | [], acc => by simp
  | p :: l, acc => by
    rw [List.foldl_cons]
    obtain ⟨h1, h2⟩ := equalFold_spec txs tx today s l (equalStep txs tx today s acc p)
    have hfst : (equalStep txs tx today s acc p).1
        = acc.1 ++ [(createItem txs tx today acc.2.2 p s).1] := rfl
    have hsnd : (equalStep txs tx today s acc p).2.1 = acc.2.1 + s := rfl
    constructor
    · rw [h1, hfst, List.map_append, List.append_assoc, List.length_cons,
        List.replicate_succ, List.map_cons, List.map_nil, createItem_amount,
        List.singleton_append]
    · rw [h2, hsnd, List.length_cons]
      push_cast
      ring

theorem guardedFold_spec (txs : List Transaction) (tx : Transaction) (today : String)
    (g : SplitParticipant → ℚ) :
    ∀ (l : List SplitParticipant) (acc : List SplitItem × ℚ × UpdatesMap),
      ((l.foldl (guardedStep txs tx today g) acc).1.map (fun i => i.amount)
         = acc.1.map (fun i => i.amount)
             ++ (l.filter (fun p => decide (g p > 0))).map (fun p => round2 (g p)))
      ∧ (l.foldl (guardedStep txs tx today g) acc).2.1
         = acc.2.1 + ((l.filter (fun p => decide (g p > 0))).map g).sum
  | [], acc => by simp
  | p :: l, acc => by
    rw [List.foldl_cons]
    obtain ⟨h1, h2⟩ := guardedFold_spec txs tx today g l (guardedStep txs tx today g acc p)
    by_cases hg : g p > 0
    · have hstep : guardedStep txs tx today g acc p
          = (acc.1 ++ [(createItem txs tx today acc.2.2 p (g p)).1], acc.2.1 + g p,
             (createItem txs tx today acc.2.2 p (g p)).2) := by
        unfold guardedStep
        rw [if_pos hg]
      have hfil : (p :: l).filter (fun q => decide (g q > 0))
          = p :: l.filter (fun q => decide (g q > 0)) := by
        simp [List.filter_cons, hg]
      constructor
      · rw [h1, hstep, hfil, List.map_append, List.append_assoc, List.map_cons,
          List.map_nil, createItem_amount, List.map_cons, List.singleton_append]
      · rw [h2, hstep, hfil, List.map_cons, List.sum_cons]
        show acc.2.1 + g p + _ = _
        ring
    · have hstep : guardedStep txs tx today g acc p = acc := by
        unfold guardedStep
        rw [if_neg hg]
      have hfil : (p :: l).filter (fun q => decide (g q > 0))
          = l.filter (fun q => decide (g q > 0)) := by
        simp [List.filter_cons, hg]
      constructor
      · rw [h1, hstep, hfil]
      · rw [h2, hstep, hfil]

theorem round2_two_decimal (m : ℤ) : round2 ((m : ℚ) / 100) = (m : ℚ) / 100 := by
  unfold round2
  rw [div_mul_cancel₀ _ (by norm_num : (100:ℚ) ≠ 0)]
  rw [add_comm, Int.floor_add_int]
  norm_num

section DecideClaims2

attribute [local semireducible] Rat.add Rat.mul Rat.inv Rat.sub

/-- C7 (amended).  For every saved split, each stored item amount is the
2-decimal rounding of that participant's unrounded share, and the stored
`totalLent` is the 2-decimal rounding of the sum of the unrounded shares —
not, in general, the sum of the already-rounded item amounts.  The two
coincide whenever the unrounded per-person share is itself a 2-decimal
quantity; in particular, in `equal` mode with 3 selected non-owner
participants on a $90.00 bill, each item amount is $30.00 and
`sum(items.amount) == totalLent == 90.00`. -/
theorem split_totalLent_amended :
    (∀ (txs : List Transaction) (tx : Transaction) (today : String)
        (ps : List SplitParticipant),
      (buildItems txs tx today .equal ps).1.map (fun i => i.amount)
          = List.replicate (ps.filter (fun p => p.id ≠ "user" ∧ p.isSelected)).length
              (round2 (splitAmount tx ps))
        ∧ (buildItems txs tx today .equal ps).2.1
          = ((ps.filter (fun p => p.id ≠ "user" ∧ p.isSelected)).length : ℚ)
              * splitAmount tx ps)
    ∧ (∀ (txs : List Transaction) (tx : Transaction) (today : String)
        (ps : List SplitParticipant),
      (buildItems txs tx today .exact ps).1.map (fun i => i.amount)
          = ((ps.filter (fun p => p.id ≠ "user")).filter
              (fun p => decide (p.amount > 0))).map (fun p => round2 p.amount)
        ∧ (buildItems txs tx today .exact ps).2.1
          = (((ps.filter (fun p => p.id ≠ "user")).filter
              (fun p => decide (p.amount > 0))).map (fun p => p.amount)).sum)
    ∧ (∀ (txs : List Transaction) (tx : Transaction) (today : String)
        (ps : List SplitParticipant),
      (buildItems txs tx today .shares ps).1.map (fun i => i.amount)
          = ((ps.filter (fun p => p.id ≠ "user")).filter
              (fun p => decide (p.shares * shareUnitValue tx ps > 0))).map
                (fun p => round2 (p.shares * shareUnitValue tx ps))
        ∧ (buildItems txs tx today .shares ps).2.1
          = (((ps.filter (fun p => p.id ≠ "user")).filter
              (fun p => decide (p.shares * shareUnitValue tx ps > 0))).map
                (fun p => p.shares * shareUnitValue tx ps)).sum)
    ∧ (∀ (txs : List Transaction) (tx : Transaction) (today : String)
        (ps : List SplitParticipant) (m : ℤ), splitAmount tx ps = (m : ℚ) / 100 →
      ((buildItems txs tx today .equal ps).1.map (fun i => i.amount)).sum
          = round2 (buildItems txs tx today .equal ps).2.1)
    ∧ (((handleLendSave [c7Tx90] c7Tx90 .equal c7Ps "2024-01-01").head?.bind
          (fun t => t.splitDetails)).map
            (fun sd => (sd.totalLent, sd.items.map (fun i => i.amount)))
        = some (90, [30, 30, 30])
      ∧ ((30 : ℚ) + 30 + 30 = 90)) := by
  refine ⟨?_, ?_, ?_, ?_, by decide⟩
  · intro txs tx today ps
    rw [buildItems_equal_eq]
    have h := equalFold_spec txs tx today (splitAmount tx ps)
      (ps.filter (fun p => p.id ≠ "user" ∧ p.isSelected)) ([], 0, [])
    simpa using h
  · intro txs tx today ps
    rw [buildItems_exact_eq]
    have h := guardedFold_spec txs tx today (fun p => p.amount)
      (ps.filter (fun p => p.id ≠ "user")) ([], 0, [])
    simpa using h
  · intro txs tx today ps
    rw [buildItems_shares_eq]
    have h := guardedFold_spec txs tx today (fun p => p.shares * shareUnitValue tx ps)
      (ps.filter (fun p => p.id ≠ "user")) ([], 0, [])
    simpa using h
  · intro txs tx today ps m hm
    rw [buildItems_equal_eq]
    have h := equalFold_spec txs tx today (splitAmount tx ps)
      (ps.filter (fun p => p.id ≠ "user" ∧ p.isSelected)) ([], 0, [])
    rw [h.1, h.2]
    simp only [List.map_nil, List.nil_append, List.sum_replicate, nsmul_eq_mul, zero_add]
    rw [hm, round2_two_decimal]
    have hcast : ((ps.filter (fun p => p.id ≠ "user" ∧ p.isSelected)).length : ℚ) * ((m : ℚ) / 100)
        = ((((ps.filter (fun p => p.id ≠ "user" ∧ p.isSelected)).length : ℤ) * m : ℤ) : ℚ) / 100 := by
      push_cast
      ring
    rw [hcast, round2_two_decimal]

/-- C7 witness: the 2-decimal agreement conjunct at the concrete $90
split. -/
theorem split_totalLent_amended_witness :
    ((buildItems [c7Tx90] c7Tx90 "2024-01-01" .equal c7Ps).1.map (fun i => i.amount)).sum
      = round2 (buildItems [c7Tx90] c7Tx90 "2024-01-01" .equal c7Ps).2.1 :=
  split_totalLent_amended.2.2.2.1 [c7Tx90] c7Tx90 "2024-01-01" c7Ps 3000 (by decide)

end DecideClaims2

/-! ## Helper lemmas: the batched-update map -/

theorem mapGet_eq_none_iff {m : UpdatesMap} {k : String} :
    mapGet m k = none ↔ m.find? (fun p => p.1 == k) = none := by
  unfold mapGet
  exact Option.map_eq_none'

theorem mapSet_of_not_found {m : UpdatesMap} {k : String} (h : mapGet m k = none)
    (v : Transaction) : mapSet m k v = m ++ [(k, v)] := by
  unfold mapSet
  simp [mapGet_eq_none_iff.mp h]

theorem mapGet_append_of_none {m1 m2 : UpdatesMap} {k : String}
    (h : mapGet m1 k = none) : mapGet (m1 ++ m2) k = mapGet m2 k := by
  unfold mapGet at *
  rw [List.find?_append, Option.map_eq_none'.mp h]
  rfl

theorem mapGet_singleton_of_ne {k k' : String} {v : Transaction} (h : k' ≠ k) :
    mapGet [(k, v)] k' = none := by
  unfold mapGet
  simp [List.find?_cons, beq_iff_eq, h.symm]

/-! ## Helper lemmas: the credit sweep -/

theorem sweepStep_of_not_qualifies (lid person : String)
    (acc : ℚ × UpdatesMap) (tx : Transaction)
    (h : sweepQualifies lid person tx = false) :
    sweepStep lid person acc tx = acc := by
  unfold sweepStep
  unfold sweepQualifies at h
  by_cases h1 : tx.id = lid
  · rw [if_pos h1]
  · rw [if_neg h1] at h ⊢
    cases hsd : tx.splitDetails with
    | none => simp only [hsd]
    | some sd =>
      simp only [hsd] at h ⊢
      cases hfind : sd.items.find? (fun i => i.name == person) with
      | none => simp only [hfind]
      | some item =>
        simp only [hfind] at h ⊢
        simp only [decide_eq_false_iff_not, not_lt] at h
        rw [if_neg (not_lt.mpr h)]

theorem sweepStep_of_qualifies (lid person : String) (c : ℚ) (um : UpdatesMap)
    (tx : Transaction) (hq : sweepQualifies lid person tx = true)
    (hget : mapGet um tx.id = none) :
    sweepStep lid person (c, um) tx
      = (c + sweepSurplusOf lid person tx, mapSet um tx.id (capCreditTx person tx)) := by
  unfold sweepStep
  unfold sweepQualifies at hq
  by_cases h1 : tx.id = lid
  · rw [if_pos h1] at hq
    cases hq
  · rw [if_neg h1] at hq ⊢
    cases hsd : tx.splitDetails with
    | none =>
      simp only [hsd] at hq
      cases hq
    | some sd =>
      simp only [hsd] at hq ⊢
      cases hfind : sd.items.find? (fun i => i.name == person) with
      | none =>
        simp only [hfind] at hq
        cases hq
      | some item =>
        simp only [hfind] at hq ⊢
        simp only [decide_eq_true_eq] at hq
        rw [if_pos hq]
        have hsurp : sweepSurplusOf lid person tx = item.paidAmount.getD 0 - item.amount := by
          unfold sweepSurplusOf sweepQualifies
          rw [if_neg h1]
          simp only [hsd, hfind]
          rw [if_pos (decide_eq_true hq)]
        have hcap : capCreditTx person tx
            = { tx with splitDetails := some { sd with items := capPersonItem person sd.items } } := by
          unfold capCreditTx
          simp only [hsd]
        rw [hsurp, hget]
        show (c + _, mapSet um tx.id _) = _
        rw [hcap]
        simp only [Option.getD_none, hsd]

theorem sweepFold_spec (lid person : String) :
    ∀ (txs : List Transaction) (c0 : ℚ) (um0 : UpdatesMap),
      (txs.map (fun t => t.id)).Nodup →
      (∀ t ∈ txs, mapGet um0 t.id = none) →
      txs.foldl (sweepStep lid person) (c0, um0)
        = (c0 + (txs.map (sweepSurplusOf lid person)).sum,
           um0 ++ (txs.filter (sweepQualifies lid person)).map
             (fun t => (t.id, capCreditTx person t)))
  | [], c0, um0, _, _ => by simp
  | t :: txs, c0, um0, hnd, hum => by
    rw [List.foldl_cons]
    have hnd0 : (∀ x ∈ txs, ¬x.id = t.id) ∧ (txs.map (fun t => t.id)).Nodup := by
      simpa using hnd
    have hnd' : (txs.map (fun t => t.id)).Nodup := hnd0.2
    cases hq : sweepQualifies lid person t with
    | false =>
      rw [sweepStep_of_not_qualifies lid person (c0, um0) t hq]
      rw [sweepFold_spec lid person txs c0 um0 hnd' (fun u hu => hum u (List.mem_cons_of_mem t hu))]
      have hz : sweepSurplusOf lid person t = 0 := by
        unfold sweepSurplusOf
        rw [if_neg (by simp [hq])]
      simp [List.filter_cons, hq, hz]
    | true =>
      have hget : mapGet um0 t.id = none := hum t (List.mem_cons_self t txs)
      rw [sweepStep_of_qualifies lid person c0 um0 t hq hget]
      rw [mapSet_of_not_found hget]
      have hum' : ∀ u ∈ txs, mapGet (um0 ++ [(t.id, capCreditTx person t)]) u.id = none := by
        intro u hu
        have hne : u.id ≠ t.id := hnd0.1 u hu
        rw [mapGet_append_of_none (hum u (List.mem_cons_of_mem t hu))]
        exact mapGet_singleton_of_ne hne
      rw [sweepFold_spec lid person txs (c0 + sweepSurplusOf lid person t)
        (um0 ++ [(t.id, capCreditTx person t)]) hnd' hum']
      rw [List.map_cons, List.sum_cons, List.filter_cons, if_pos (by simp [hq])]
      rw [List.map_cons, List.append_assoc, List.singleton_append, add_assoc]

section DecideClaims3

attribute [local semireducible] Rat.add Rat.mul Rat.inv Rat.sub

/-- C1 (amended).  When recomputing a split item for participant P, the
sweep withdraws the surplus from every other transaction whose item for P
has `paidAmount` exceeding `amount` by more than 0.01 (not from every
transaction with any positive surplus): each such source is capped to its
own `amount` and marked settled, the total of the qualifying surpluses is
added to the recomputed item's starting `paidAmount`, and all sources enter
the same batched update.  In particular the spec's own example holds: with
Alex at `amount 20 / paidAmount 25` on T1, creating a $5 item for Alex on T2
yields T2's item `paidAmount 5, isSettled true` and T1's item
`paidAmount 20, isSettled true`, with total paid money conserved at 25. -/
theorem credit_sweep_amended :
    (∀ (txs : List Transaction) (lid person : String),
      (txs.map (fun t => t.id)).Nodup →
      sweepCreditForPerson txs lid [] person
        = ((txs.map (sweepSurplusOf lid person)).sum,
           (txs.filter (sweepQualifies lid person)).map
             (fun t => (t.id, capCreditTx person t))))
    ∧ (∀ (txs : List Transaction) (tx : Transaction) (today : String)
        (p : SplitParticipant) (a : ℚ),
      (txs.map (fun t => t.id)).Nodup →
      (createItem txs tx today [] p a).1.paidAmount
        = some ((((tx.splitDetails.bind
              (fun sd => sd.items.find? (fun i => i.id == p.id))).bind
                (fun i => i.paidAmount)).getD 0)
            + (txs.map (sweepSurplusOf tx.id p.name)).sum))
    ∧ (((handleLendSave [alexT1, alexT2] alexT2 .exact alexPs "2024-01-01").map
          (fun t => t.id)) = ["t1", "t2"]
      ∧ ((handleLendSave [alexT1, alexT2] alexT2 .exact alexPs "2024-01-01").map
          (fun t => t.splitDetails.map (fun sd => sd.items.map (fun i => i.name))))
        = [some ["Alex"], some ["Alex"]]
      ∧ ((handleLendSave [alexT1, alexT2] alexT2 .exact alexPs "2024-01-01").map
          (fun t => t.splitDetails.map (fun sd => sd.items.map (fun i => i.amount))))
        = [some [20], some [5]]
      ∧ ((handleLendSave [alexT1, alexT2] alexT2 .exact alexPs "2024-01-01").map
          (fun t => t.splitDetails.map (fun sd => sd.items.map itemPaid)))
        = [some [20], some [5]]
      ∧ ((handleLendSave [alexT1, alexT2] alexT2 .exact alexPs "2024-01-01").map
          (fun t => t.splitDetails.map (fun sd => sd.items.map (fun i => i.isSettled))))
        = [some [true], some [true]]
      ∧ ledgerPaidSum (handleUpdateTransaction [alexT1, alexT2]
          (handleLendSave [alexT1, alexT2] alexT2 .exact alexPs "2024-01-01")) = 25
      ∧ ledgerPaidSum [alexT1, alexT2] = 25) := by
  refine ⟨?_, ?_, by decide⟩
  · intro txs lid person hnd
    unfold sweepCreditForPerson
    rw [sweepFold_spec lid person txs 0 [] hnd (fun t _ => rfl)]
    rw [zero_add]
    rfl
  · intro txs tx today p a hnd
    have hpaid : (createItem txs tx today [] p a).1.paidAmount
        = some ((((tx.splitDetails.bind
              (fun sd => sd.items.find? (fun i => i.id == p.id))).bind
                (fun i => i.paidAmount)).getD 0)
            + (sweepCreditForPerson txs tx.id [] p.name).1) := rfl
    rw [hpaid]
    unfold sweepCreditForPerson
    rw [sweepFold_spec tx.id p.name txs 0 [] hnd (fun t _ => rfl)]
    rw [zero_add]

/-- C1 witness: the sweep characterization at the concrete Alex ledger. -/
theorem credit_sweep_amended_witness :
    sweepCreditForPerson [alexT1, alexT2] "t2" [] "Alex"
      = (([alexT1, alexT2].map (sweepSurplusOf "t2" "Alex")).sum,
         ([alexT1, alexT2].filter (sweepQualifies "t2" "Alex")).map
           (fun t => (t.id, capCreditTx "Alex" t))) :=
  credit_sweep_amended.1 [alexT1, alexT2] "t2" "Alex" (by decide)

end DecideClaims3

/-! ## Helper lemmas: the bulk-settlement loop -/

theorem bulkLoop_cons (mostRecentId now payId today : String) (tx : Transaction)
    (item : SplitItem) (rest : List (Transaction × SplitItem)) (remaining : ℚ)
    (um : UpdatesMap) :
    bulkLoop mostRecentId now payId today ((tx, item) :: rest) remaining um
      = if remaining ≤ 9/1000 then (remaining, um)
        else
          let currentOwed := max 0 (item.amount - item.paidAmount.getD 0)
          let pay0 := if currentOwed > 0 then min remaining currentOwed else 0
          let payThisTx := if tx.id = mostRecentId ∧ remaining > pay0 then remaining else pay0
          if payThisTx > 0 then
            bulkLoop mostRecentId now payId today rest (remaining - payThisTx)
              (mapSet um tx.id (bulkApplyPay now payId today um tx item payThisTx))
          else bulkLoop mostRecentId now payId today rest remaining um := rfl

theorem bulkLoop_stop (mostRecentId now payId today : String) :
    ∀ (es : List (Transaction × SplitItem)) (r : ℚ) (um : UpdatesMap), r ≤ 9/1000 →
      bulkLoop mostRecentId now payId today es r um = (r, um)
  | [], _, _, _ => rfl
  | (tx, item) :: rest, r, um, h => by
    rw [bulkLoop_cons, if_pos h]

theorem bulkLoop_step_waterfall (mostRecentId now payId today : String)
    (remaining : ℚ) (um : UpdatesMap) (tx : Transaction) (item : SplitItem)
    (rest : List (Transaction × SplitItem))
    (hrem : 9/1000 < remaining) (hmr : tx.id ≠ mostRecentId)
    (howed : 0 < item.amount - item.paidAmount.getD 0) :
    bulkLoop mostRecentId now payId today ((tx, item) :: rest) remaining um
      = bulkLoop mostRecentId now payId today rest
          (remaining - min remaining (item.amount - item.paidAmount.getD 0))
          (mapSet um tx.id (bulkApplyPay now payId today um tx item
            (min remaining (item.amount - item.paidAmount.getD 0)))) := by
  have h1 : ¬ remaining ≤ 9/1000 := not_le.mpr hrem
  have h2 : max 0 (item.amount - item.paidAmount.getD 0)
      = item.amount - item.paidAmount.getD 0 := max_eq_right howed.le
  have h3 : ¬ (tx.id = mostRecentId
      ∧ remaining > min remaining (item.amount - item.paidAmount.getD 0)) :=
    fun hc => hmr hc.1
  have h4 : 0 < min remaining (item.amount - item.paidAmount.getD 0) :=
    lt_min (by linarith) howed
  rw [bulkLoop_cons]
  simp only [h2]
  rw [if_neg h1, if_pos howed, if_neg h3, if_pos h4]

theorem bulkLoop_step_skip (mostRecentId now payId today : String)
    (remaining : ℚ) (um : UpdatesMap) (tx : Transaction) (item : SplitItem)
    (rest : List (Transaction × SplitItem))
    (hrem : 9/1000 < remaining) (hmr : tx.id ≠ mostRecentId)
    (howed : item.amount - item.paidAmount.getD 0 ≤ 0) :
    bulkLoop mostRecentId now payId today ((tx, item) :: rest) remaining um
      = bulkLoop mostRecentId now payId today rest remaining um := by
  have h1 : ¬ remaining ≤ 9/1000 := not_le.mpr hrem
  have h2 : max 0 (item.amount - item.paidAmount.getD 0) = 0 := max_eq_left howed
  have h3 : ¬ ((0:ℚ) > 0) := lt_irrefl 0
  rw [bulkLoop_cons]
  simp only [h2, if_neg h1, if_neg h3]
  rw [if_neg (fun hc : tx.id = mostRecentId ∧ remaining > (0:ℚ) => hmr hc.1)]
  try rw [if_neg h3]
  try rfl

theorem bulkLoop_step_mostRecent (mostRecentId now payId today : String)
    (remaining : ℚ) (um : UpdatesMap) (tx : Transaction) (item : SplitItem)
    (rest : List (Transaction × SplitItem))
    (hrem : 9/1000 < remaining) (hmr : tx.id = mostRecentId) :
    bulkLoop mostRecentId now payId today ((tx, item) :: rest) remaining um
      = (0, mapSet um tx.id (bulkApplyPay now payId today um tx item remaining)) := by
  have h1 : ¬ remaining ≤ 9/1000 := not_le.mpr hrem
  rw [bulkLoop_cons, if_neg h1]
  show (if (if (tx.id = mostRecentId ∧ remaining >
        (if max 0 (item.amount - item.paidAmount.getD 0) > 0
          then min remaining (max 0 (item.amount - item.paidAmount.getD 0)) else 0))
      then remaining
      else (if max 0 (item.amount - item.paidAmount.getD 0) > 0
          then min remaining (max 0 (item.amount - item.paidAmount.getD 0)) else 0)) > 0
    then _ else _) = _
  have hle : (if max 0 (item.amount - item.paidAmount.getD 0) > 0
      then min remaining (max 0 (item.amount - item.paidAmount.getD 0)) else 0) ≤ remaining := by
    split
    · exact min_le_left _ _
    · linarith
  have hpayEq : (if (tx.id = mostRecentId ∧ remaining >
        (if max 0 (item.amount - item.paidAmount.getD 0) > 0
          then min remaining (max 0 (item.amount - item.paidAmount.getD 0)) else 0))
      then remaining
      else (if max 0 (item.amount - item.paidAmount.getD 0) > 0
          then min remaining (max 0 (item.amount - item.paidAmount.getD 0)) else 0)) = remaining := by
    by_cases hgt : remaining >
        (if max 0 (item.amount - item.paidAmount.getD 0) > 0
          then min remaining (max 0 (item.amount - item.paidAmount.getD 0)) else 0)
    · rw [if_pos ⟨hmr, hgt⟩]
    · rw [if_neg (fun hc => hgt hc.2)]
      exact le_antisymm hle (not_lt.mp hgt)
  rw [hpayEq, if_pos (by linarith : (0:ℚ) < remaining), sub_self]
  exact bulkLoop_stop mostRecentId now payId today rest 0 _ (by norm_num)

theorem personHistory_sorted (txs : List Transaction) (person : String) :
    List.Sorted histLE (personHistory txs person) :=
  List.sorted_insertionSort histLE _

theorem relevantHistory_sorted_asc (txs : List Transaction) (person : String) :
    List.Sorted (fun x y : Transaction × SplitItem => x.1.date ≤ y.1.date)
      ((personHistory txs person).reverse) :=
  List.pairwise_reverse.mpr (personHistory_sorted txs person)

section DecideClaims4

attribute [local semireducible] Rat.add Rat.mul Rat.inv Rat.sub

/-- C2 (amended).  The bulk settlement walks the person's items in ascending
transaction-date order (the processed list is the reverse of the
descending-sorted `personHistory`), and every visited item on a transaction
other than the most recent one, having outstanding balance, receives exactly
`min(remainingPayment, outstandingBalance)` — recorded by `bulkApplyPay`,
which appends a new Payment of that amount, raises `paidAmount` by it and
recomputes `isSettled`/`dateSettled`.  Exceptions forced by the code (see
the counterexample): the walk stops once at most 0.009 remains, and the most
recent transaction's item receives the entire remainder instead of the
`min`.  In particular, for unsettled items of $10 (dated day 1) and $15
(dated day 2), a $12 payment leaves the older item settled at
`paidAmount 10` and the newer at `paidAmount 2` with $13 outstanding. -/
theorem settlement_waterfall_amended :
    (∀ (txs : List Transaction) (person : String),
      List.Sorted (fun x y : Transaction × SplitItem => x.1.date ≤ y.1.date)
        ((personHistory txs person).reverse))
    ∧ (∀ (mostRecentId now payId today : String) (remaining : ℚ) (um : UpdatesMap)
        (tx : Transaction) (item : SplitItem) (rest : List (Transaction × SplitItem)),
      9/1000 < remaining → tx.id ≠ mostRecentId →
      0 < item.amount - item.paidAmount.getD 0 →
      bulkLoop mostRecentId now payId today ((tx, item) :: rest) remaining um
        = bulkLoop mostRecentId now payId today rest
            (remaining - min remaining (item.amount - item.paidAmount.getD 0))
            (mapSet um tx.id (bulkApplyPay now payId today um tx item
              (min remaining (item.amount - item.paidAmount.getD 0)))))
    ∧ (((handleBulkSettle [bulkT1, bulkT2] "P" 12 "now" "pay" "today").map
          (fun t => t.id)) = ["t1", "t2"]
      ∧ ((handleBulkSettle [bulkT1, bulkT2] "P" 12 "now" "pay" "today").map
          (fun t => t.splitDetails.map (fun sd => sd.items.map itemPaid)))
        = [some [10], some [2]]
      ∧ ((handleBulkSettle [bulkT1, bulkT2] "P" 12 "now" "pay" "today").map
          (fun t => t.splitDetails.map (fun sd => sd.items.map (fun i => i.isSettled))))
        = [some [true], some [false]]
      ∧ (((handleBulkSettle [bulkT1, bulkT2] "P" 12 "now" "pay" "today").map
          (fun t => (t.splitDetails.map (fun sd => sd.items)).getD [])).flatten.map
            (fun i => (i.payments.getD []).map (fun p => p.amount)))
        = [[10], [2]]
      ∧ (((handleBulkSettle [bulkT1, bulkT2] "P" 12 "now" "pay" "today").map
          (fun t => (t.splitDetails.map (fun sd => sd.items)).getD [])).flatten.map
            (fun i => i.dateSettled))
        = [some "today", none]
      ∧ (15 : ℚ) - 2 = 13) := by
  refine ⟨relevantHistory_sorted_asc, bulkLoop_step_waterfall, by decide⟩

/-- C2 witness: the waterfall step at the concrete older $10 item with a $12
remaining payment. -/
theorem settlement_waterfall_amended_witness :
    bulkLoop "t2" "now" "pay" "today" [(bulkT1, itemP "i1" 10 (some 0) false)] 12 []
      = bulkLoop "t2" "now" "pay" "today" []
          (12 - min 12 ((itemP "i1" 10 (some 0) false).amount
            - (itemP "i1" 10 (some 0) false).paidAmount.getD 0))
          (mapSet [] bulkT1.id (bulkApplyPay "now" "pay" "today" [] bulkT1
            (itemP "i1" 10 (some 0) false)
            (min 12 ((itemP "i1" 10 (some 0) false).amount
              - (itemP "i1" 10 (some 0) false).paidAmount.getD 0)))) :=
  settlement_waterfall_amended.2.1 "t2" "now" "pay" "today" 12 [] bulkT1
    (itemP "i1" 10 (some 0) false) [] (by norm_num) (by decide) (by decide)

/-- C3 (amended).  When the loop reaches the item of the most recent
transaction with more than 0.009 of the payment remaining, that item
receives the entire remainder — even if it is already settled and regardless
of its outstanding balance — producing or increasing an overpayment credit,
and the loop ends with remaining 0.  (A remainder of at most 0.009 is
instead discarded by the stop threshold; see the counterexample.)  In
particular, for the $10/$15 items a $30 payment settles both and leaves the
newer item's `paidAmount` at 20, exceeding its amount 15 by exactly 5. -/
theorem settlement_overflow_amended :
    (∀ (mostRecentId now payId today : String) (remaining : ℚ) (um : UpdatesMap)
        (tx : Transaction) (item : SplitItem) (rest : List (Transaction × SplitItem)),
      9/1000 < remaining → tx.id = mostRecentId →
      bulkLoop mostRecentId now payId today ((tx, item) :: rest) remaining um
        = (0, mapSet um tx.id (bulkApplyPay now payId today um tx item remaining)))
    ∧ (((handleBulkSettle [bulkT1, bulkT2] "P" 30 "now" "pay" "today").map
          (fun t => t.id)) = ["t1", "t2"]
      ∧ ((handleBulkSettle [bulkT1, bulkT2] "P" 30 "now" "pay" "today").map
          (fun t => t.splitDetails.map (fun sd => sd.items.map itemPaid)))
        = [some [10], some [20]]
      ∧ ((handleBulkSettle [bulkT1, bulkT2] "P" 30 "now" "pay" "today").map
          (fun t => t.splitDetails.map (fun sd => sd.items.map (fun i => i.isSettled))))
        = [some [true], some [true]]
      ∧ (20 : ℚ) = 15 + 5) := by
  refine ⟨bulkLoop_step_mostRecent, by decide⟩

/-- C3 witness: the overflow dump at the concrete newer $15 item with $20
remaining. -/
theorem settlement_overflow_amended_witness :
    bulkLoop "t2" "now" "pay" "today" [(bulkT2, itemP "i2" 15 (some 0) false)] 20 []
      = (0, mapSet [] bulkT2.id (bulkApplyPay "now" "pay" "today" [] bulkT2
          (itemP "i2" 15 (some 0) false) 20)) :=
  settlement_overflow_amended.1 "t2" "now" "pay" "today" 20 [] bulkT2
    (itemP "i2" 15 (some 0) false) [] (by norm_num) rfl

end DecideClaims4

/-! ## Helper lemmas: money accounting for the bulk settlement -/

theorem handleUpdate_eq_applyFn (txs : List Transaction) (um : UpdatesMap) :
    handleUpdateTransaction txs (mapValues um) = applyUpdatesFn txs um := by
  unfold handleUpdateTransaction applyUpdatesFn
  split
  case isTrue h =>
    have hnil : mapValues um = [] := List.length_eq_zero.mp h
    simp [hnil]
  case isFalse h => rfl

theorem nodup_map_mem_eq {α β : Type} {f : α → β} :
    ∀ {l : List α}, (l.map f).Nodup → ∀ {a b : α}, a ∈ l → b ∈ l → f a = f b → a = b
  | [], _, _, _, ha, _, _ => absurd ha (List.not_mem_nil _)
  | x :: xs, hnd, a, b, ha, hb, hfab => by
    have hx : f x ∉ xs.map f := (List.nodup_cons.mp (by simpa using hnd)).1
    have hnd' : (xs.map f).Nodup := (List.nodup_cons.mp (by simpa using hnd)).2
    rcases List.mem_cons.mp ha with rfl | ha1
    · rcases List.mem_cons.mp hb with rfl | hb1
      · rfl
      · exact absurd (hfab ▸ List.mem_map_of_mem f hb1) hx
    · rcases List.mem_cons.mp hb with rfl | hb1
      · exact absurd (hfab ▸ List.mem_map_of_mem f ha1) hx
      · exact nodup_map_mem_eq hnd' ha1 hb1 hfab

theorem map_sum_update (f g : Transaction → ℚ) :
    ∀ (l : List Transaction) (k : String), (l.map (fun t => t.id)).Nodup →
      (∀ t ∈ l, t.id ≠ k → g t = f t) →
      ∀ t0, t0 ∈ l → t0.id = k →
      (l.map g).sum = (l.map f).sum + (g t0 - f t0)
  | [], _, _, _, t0, h, _ => absurd h (List.not_mem_nil _)
  | x :: xs, k, hnd, hne, t0, ht0, hk => by
    have hx : x.id ∉ xs.map (fun t => t.id) := (List.nodup_cons.mp (by simpa using hnd)).1
    have hnd' : (xs.map (fun t => t.id)).Nodup := (List.nodup_cons.mp (by simpa using hnd)).2
    rcases List.mem_cons.mp ht0 with rfl | ht1
    · have htail : xs.map g = xs.map f := by
        apply List.map_congr_left
        intro t ht
        refine hne t (List.mem_cons_of_mem t0 ht) ?_
        intro he
        refine hx ?_
        rw [hk, ← he]
        exact List.mem_map_of_mem (fun t => t.id) ht
      simp only [List.map_cons, List.sum_cons, htail]
      ring
    · have hxk : x.id ≠ k := by
        intro he
        refine hx ?_
        rw [he, ← hk]
        exact List.mem_map_of_mem (fun t => t.id) ht1
      have hgx : g x = f x := hne x (List.mem_cons_self x xs) hxk
      rw [List.map_cons, List.sum_cons, List.map_cons, List.sum_cons, hgx,
        map_sum_update f g xs k hnd' (fun t ht hh => hne t (List.mem_cons_of_mem x ht) hh)
          t0 ht1 hk]
      ring

theorem applyFn_append_paid (txs : List Transaction)
    (hid : (txs.map (fun t => t.id)).Nodup)
    (um : UpdatesMap) (humOK : ∀ kv ∈ um, (kv.2 : Transaction).id = kv.1)
    (tx : Transaction) (htx : tx ∈ txs) (v : Transaction) (hv : v.id = tx.id)
    (hget : mapGet um tx.id = none) :
    ledgerPaidSum (applyUpdatesFn txs (um ++ [(tx.id, v)]))
      = ledgerPaidSum (applyUpdatesFn txs um) + (txPaidSum v - txPaidSum tx) := by
  have hvals : mapValues (um ++ [(tx.id, v)]) = mapValues um ++ [v] := by
    unfold mapValues
    rw [List.map_append]
    rfl
  have hnovals : ∀ u ∈ mapValues um, u.id ≠ tx.id := by
    intro u hu he
    obtain ⟨kv, hkv, rfl⟩ := List.mem_map.mp hu
    have hkey : kv.1 = tx.id := by rw [← humOK kv hkv, he]
    have : um.find? (fun p => p.1 == tx.id) = none := mapGet_eq_none_iff.mp hget
    have := List.find?_eq_none.mp this kv hkv
    simp [hkey] at this
  have hlookup_old_tx : ((mapValues um).reverse.find? (fun u => u.id == tx.id)) = none := by
    rw [List.find?_eq_none]
    intro u hu
    simp [hnovals u (List.mem_reverse.mp hu)]
  have hold : ∀ t : Transaction, t.id ≠ tx.id →
      ((mapValues (um ++ [(tx.id, v)])).reverse.find? (fun u => u.id == t.id)).getD t
        = ((mapValues um).reverse.find? (fun u => u.id == t.id)).getD t := by
    intro t hne
    rw [hvals, List.reverse_append]
    show ((([v].reverse) ++ (mapValues um).reverse).find? (fun u => u.id == t.id)).getD t = _
    rw [List.find?_append]
    have : [v].reverse.find? (fun u => u.id == t.id) = none := by
      rw [List.find?_eq_none]
      intro u hu
      have : u = v := by simpa using hu
      subst this
      simp [hv, Ne.symm hne]
    rw [this]
    rfl
  have hnew_tx : ((mapValues (um ++ [(tx.id, v)])).reverse.find? (fun u => u.id == tx.id)).getD tx
      = v := by
    rw [hvals, List.reverse_append]
    show ((([v].reverse) ++ (mapValues um).reverse).find? (fun u => u.id == tx.id)).getD tx = v
    rw [List.find?_append]
    have : [v].reverse.find? (fun u => u.id == tx.id) = some v := by
      simp [List.find?_cons, hv]
    rw [this]
    rfl
  have hcong : ∀ t ∈ txs, t.id ≠ tx.id →
      (txPaidSum ∘ fun t =>
          ((mapValues (um ++ [(tx.id, v)])).reverse.find? (fun u => u.id == t.id)).getD t) t
        = (txPaidSum ∘ fun t =>
          ((mapValues um).reverse.find? (fun u => u.id == t.id)).getD t) t := by
    intro t ht hne
    simp only [Function.comp_apply]
    rw [hold t hne]
  unfold applyUpdatesFn ledgerPaidSum
  rw [List.map_map, List.map_map]
  rw [map_sum_update
    (txPaidSum ∘ fun t => ((mapValues um).reverse.find? (fun u => u.id == t.id)).getD t)
    (txPaidSum ∘ fun t =>
      ((mapValues (um ++ [(tx.id, v)])).reverse.find? (fun u => u.id == t.id)).getD t)
    txs tx.id hid hcong tx htx rfl]
  simp only [Function.comp_apply]
  rw [hnew_tx, hlookup_old_tx]
  simp

theorem personItemOf_some {person : String} {tx : Transaction} {item : SplitItem}
    (h : personItemOf person tx = some item) :
    ∃ sd, tx.splitDetails = some sd
      ∧ sd.items.find? (fun i => i.name == person) = some item := by
  unfold personItemOf at h
  cases hsd : tx.splitDetails with
  | none => rw [hsd] at h; cases h
  | some sd =>
    rw [hsd] at h
    exact ⟨sd, rfl, h⟩

theorem updateFirstById_middle (targetId : String) (f : SplitItem → SplitItem) :
    ∀ (pre : List SplitItem), (∀ j ∈ pre, j.id ≠ targetId) →
      ∀ (i : SplitItem), i.id = targetId → ∀ (post : List SplitItem),
      updateFirstById targetId f (pre ++ i :: post) = pre ++ f i :: post
  | [], _, i, hi, post => by
    unfold updateFirstById
    simp [hi]
  | j :: pre, hpre, i, hi, post => by
    have hj : j.id ≠ targetId := hpre j (List.mem_cons_self j pre)
    show updateFirstById targetId f (j :: (pre ++ i :: post)) = _
    unfold updateFirstById
    simp only [beq_eq_false_iff_ne.mpr hj, Bool.false_eq_true, if_false]
    rw [updateFirstById_middle targetId f pre
      (fun q hq => hpre q (List.mem_cons_of_mem j hq)) i hi post]
    rfl

theorem bulkApplyPay_id (now payId today : String) (um : UpdatesMap) (tx : Transaction)
    (item : SplitItem) (pay : ℚ) (hget : mapGet um tx.id = none) :
    (bulkApplyPay now payId today um tx item pay).id = tx.id := by
  unfold bulkApplyPay
  rw [hget]
  simp only [Option.getD_none]
  cases hsd : tx.splitDetails <;> simp [hsd]

theorem bulkApplyPay_paidSum (now payId today person : String) (um : UpdatesMap)
    (tx : Transaction) (item : SplitItem) (pay : ℚ)
    (hget : mapGet um tx.id = none)
    (hpi : personItemOf person tx = some item)
    (hnd : ((tx.splitDetails.map (fun sd => sd.items.map (fun i => i.id))).getD []).Nodup) :
    txPaidSum (bulkApplyPay now payId today um tx item pay) = txPaidSum tx + pay := by
  obtain ⟨sd, hsd, hfind⟩ := personItemOf_some hpi
  obtain ⟨pre, post, hsplit, _, _⟩ := find?_first_decomp hfind
  have hnd' : (sd.items.map (fun i => i.id)).Nodup := by
    rw [hsd] at hnd
    simpa using hnd
  have hpre : ∀ j ∈ pre, j.id ≠ item.id := by
    rw [hsplit, List.map_append, List.map_cons] at hnd'
    have hnotin : item.id ∉ (pre.map (fun i => i.id) ++ post.map (fun i => i.id)) :=
      (List.nodup_cons.mp (List.nodup_middle.mp hnd')).1
    intro j hj he
    exact hnotin (by rw [← he]; exact List.mem_append_left _ (List.mem_map_of_mem _ hj))
  unfold bulkApplyPay
  rw [hget]
  simp only [Option.getD_none, hsd]
  unfold txPaidSum
  simp only [hsd]
  rw [hsplit, updateFirstById_middle item.id _ pre hpre item rfl post]
  simp only [List.map_append, List.map_cons, List.sum_append, List.sum_cons]
  have hnewpaid : itemPaid (bulkPayItem now payId today (item.paidAmount.getD 0 + pay)
      (decide (item.paidAmount.getD 0 + pay ≥ item.amount - 1/100)) pay item)
      = item.paidAmount.getD 0 + pay := by
    unfold bulkPayItem itemPaid
    rfl
  rw [hnewpaid]
  unfold itemPaid
  ring

theorem bulkLoop_conservation (txs : List Transaction)
    (person mrid now payId today : String)
    (hid : (txs.map (fun t => t.id)).Nodup)
    (hitems : ∀ t ∈ txs,
      ((t.splitDetails.map (fun sd => sd.items.map (fun i => i.id))).getD []).Nodup) :
    ∀ (es : List (Transaction × SplitItem)) (remaining : ℚ) (um : UpdatesMap),
      0 ≤ remaining →
      (∀ e ∈ es, e.1 ∈ txs ∧ personItemOf person e.1 = some e.2) →
      (es.map (fun e => e.1.id)).Nodup →
      (∀ e ∈ es, mapGet um e.1.id = none) →
      (∀ kv ∈ um, (kv.2 : Transaction).id = kv.1) →
      0 ≤ (bulkLoop mrid now payId today es remaining um).1
      ∧ (bulkLoop mrid now payId today es remaining um).1 ≤ remaining
      ∧ ledgerPaidSum (applyUpdatesFn txs (bulkLoop mrid now payId today es remaining um).2)
          = ledgerPaidSum (applyUpdatesFn txs um)
            + (remaining - (bulkLoop mrid now payId today es remaining um).1)
      ∧ (∀ kv ∈ (bulkLoop mrid now payId today es remaining um).2,
          (kv.2 : Transaction).id = kv.1)
      ∧ ((es ≠ [] ∧ es.getLast?.map (fun e => e.1.id) = some mrid) →
          (bulkLoop mrid now payId today es remaining um).1 ≤ 9/1000)
  | [], remaining, um, h0, _, _, _, humOK => by
    refine ⟨h0, le_refl _, ?_, humOK, ?_⟩
    · show ledgerPaidSum (applyUpdatesFn txs um)
        = ledgerPaidSum (applyUpdatesFn txs um) + (remaining - remaining)
      rw [sub_self, add_zero]
    · rintro ⟨hne, _⟩
      exact absurd rfl hne
  | (tx, item) :: rest, remaining, um, h0, hE, hnd, hdis, humOK => by
    by_cases hstop : remaining ≤ 9/1000
    · rw [bulkLoop_stop mrid now payId today _ remaining um hstop]
      refine ⟨h0, le_refl _, ?_, humOK, fun _ => hstop⟩
      show ledgerPaidSum (applyUpdatesFn txs um)
        = ledgerPaidSum (applyUpdatesFn txs um) + (remaining - remaining)
      rw [sub_self, add_zero]
    · have hlt : 9/1000 < remaining := not_le.mp hstop
      obtain ⟨htx, hpi⟩ := hE (tx, item) (List.mem_cons_self _ _)
      have hget : mapGet um tx.id = none := hdis (tx, item) (List.mem_cons_self _ _)
      have hnd0 : (∀ e ∈ rest, ¬ (e : Transaction × SplitItem).1.id = tx.id)
          ∧ (rest.map (fun e => e.1.id)).Nodup := by
        simpa using hnd
      by_cases hmr : tx.id = mrid
      · rw [bulkLoop_step_mostRecent mrid now payId today remaining um tx item rest hlt hmr]
        have hset : mapSet um tx.id (bulkApplyPay now payId today um tx item remaining)
            = um ++ [(tx.id, bulkApplyPay now payId today um tx item remaining)] :=
          mapSet_of_not_found hget _
        have hvid : (bulkApplyPay now payId today um tx item remaining).id = tx.id :=
          bulkApplyPay_id now payId today um tx item remaining hget
        refine ⟨le_refl 0, h0, ?_, ?_, fun _ => (show (0:ℚ) ≤ 9/1000 by norm_num)⟩
        · show ledgerPaidSum (applyUpdatesFn txs (mapSet um tx.id _)) = _
          rw [hset, applyFn_append_paid txs hid um humOK tx htx _ hvid hget,
            bulkApplyPay_paidSum now payId today person um tx item remaining hget hpi
              (hitems tx htx)]
          ring
        · show ∀ kv ∈ mapSet um tx.id _, (kv.2 : Transaction).id = kv.1
          rw [hset]
          intro kv hkv
          rcases List.mem_append.mp hkv with hkv1 | hkv2
          · exact humOK kv hkv1
          · have : kv = (tx.id, bulkApplyPay now payId today um tx item remaining) := by
              simpa using hkv2
            subst this
            exact hvid
      · by_cases howed : 0 < item.amount - item.paidAmount.getD 0
        · rw [bulkLoop_step_waterfall mrid now payId today remaining um tx item rest hlt hmr
            howed]
          have hpay0 : 0 ≤ min remaining (item.amount - item.paidAmount.getD 0) :=
            le_min h0 howed.le
          have hpayle : min remaining (item.amount - item.paidAmount.getD 0) ≤ remaining :=
            min_le_left _ _
          have hset : mapSet um tx.id (bulkApplyPay now payId today um tx item
              (min remaining (item.amount - item.paidAmount.getD 0)))
              = um ++ [(tx.id, bulkApplyPay now payId today um tx item
                  (min remaining (item.amount - item.paidAmount.getD 0)))] :=
            mapSet_of_not_found hget _
          have hvid : (bulkApplyPay now payId today um tx item
              (min remaining (item.amount - item.paidAmount.getD 0))).id = tx.id :=
            bulkApplyPay_id now payId today um tx item _ hget
          have humOK' : ∀ kv ∈ um ++ [(tx.id, bulkApplyPay now payId today um tx item
              (min remaining (item.amount - item.paidAmount.getD 0)))],
              (kv.2 : Transaction).id = kv.1 := by
            intro kv hkv
            rcases List.mem_append.mp hkv with hkv1 | hkv2
            · exact humOK kv hkv1
            · have : kv = (tx.id, bulkApplyPay now payId today um tx item
                  (min remaining (item.amount - item.paidAmount.getD 0))) := by
                simpa using hkv2
              subst this
              exact hvid
          have hdis' : ∀ e ∈ rest, mapGet (um ++ [(tx.id, bulkApplyPay now payId today um tx
              item (min remaining (item.amount - item.paidAmount.getD 0)))]) e.1.id = none := by
            intro e he
            rw [mapGet_append_of_none (hdis e (List.mem_cons_of_mem _ he))]
            exact mapGet_singleton_of_ne (hnd0.1 e he)
          have IH := bulkLoop_conservation txs person mrid now payId today hid hitems rest
            (remaining - min remaining (item.amount - item.paidAmount.getD 0))
            (um ++ [(tx.id, bulkApplyPay now payId today um tx item
              (min remaining (item.amount - item.paidAmount.getD 0)))])
            (by linarith) (fun e he => hE e (List.mem_cons_of_mem _ he)) hnd0.2 hdis' humOK'
          rw [hset]
          obtain ⟨ih0, ihle, ihsum, ihOK, ihlast⟩ := IH
          refine ⟨ih0, by linarith, ?_, ihOK, ?_⟩
          · rw [ihsum, applyFn_append_paid txs hid um humOK tx htx _ hvid hget,
              bulkApplyPay_paidSum now payId today person um tx item _ hget hpi
                (hitems tx htx)]
            ring
          · rintro ⟨_, hlast⟩
            cases rest with
            | nil =>
              simp only [List.getLast?_singleton, Option.map_some'] at hlast
              exact absurd (by simpa using hlast) hmr
            | cons r rs =>
              rw [List.getLast?_cons_cons] at hlast
              exact ihlast ⟨List.cons_ne_nil r rs, hlast⟩
        · rw [bulkLoop_step_skip mrid now payId today remaining um tx item rest hlt hmr
            (not_lt.mp howed)]
          have IH := bulkLoop_conservation txs person mrid now payId today hid hitems rest
            remaining um h0 (fun e he => hE e (List.mem_cons_of_mem _ he)) hnd0.2
            (fun e he => hdis e (List.mem_cons_of_mem _ he)) humOK
          obtain ⟨ih0, ihle, ihsum, ihOK, ihlast⟩ := IH
          refine ⟨ih0, ihle, ihsum, ihOK, ?_⟩
          rintro ⟨_, hlast⟩
          cases rest with
          | nil =>
            simp only [List.getLast?_singleton, Option.map_some'] at hlast
            exact absurd (by simpa using hlast) hmr
          | cons r rs =>
            rw [List.getLast?_cons_cons] at hlast
            exact ihlast ⟨List.cons_ne_nil r rs, hlast⟩

/-! ## Helper lemmas: personHistory structure -/

theorem filterMap_personItem_fst_sublist (person : String) :
    ∀ (l : List Transaction),
      List.Sublist
        ((l.filterMap (fun t => (personItemOf person t).map (fun i => (t, i)))).map
          Prod.fst) l
  | [] => List.Sublist.refl []
  | t :: l => by
    rw [List.filterMap_cons]
    cases hp : (personItemOf person t).map (fun i => (t, i)) with
    | none => exact (filterMap_personItem_fst_sublist person l).cons t
    | some e =>
      obtain ⟨i, _, rfl⟩ := Option.map_eq_some'.mp hp
      rw [List.map_cons]
      exact (filterMap_personItem_fst_sublist person l).cons₂ t

theorem mem_personHistory_candidates {person : String} {txs : List Transaction}
    {e : Transaction × SplitItem}
    (h : e ∈ (txs.filter (hasItemForPerson person)).filterMap
      (fun t => (personItemOf person t).map (fun i => (t, i)))) :
    e.1 ∈ txs ∧ personItemOf person e.1 = some e.2 := by
  obtain ⟨t, ht, hmap⟩ := List.mem_filterMap.mp h
  obtain ⟨i, hi, hei⟩ := Option.map_eq_some'.mp hmap
  subst hei
  exact ⟨List.mem_of_mem_filter ht, hi⟩

theorem personHistory_entry {person : String} {txs : List Transaction}
    {e : Transaction × SplitItem} (h : e ∈ personHistory txs person) :
    e.1 ∈ txs ∧ personItemOf person e.1 = some e.2 :=
  mem_personHistory_candidates
    ((List.perm_insertionSort histLE _).mem_iff.mp h)

theorem personHistory_ids_nodup (person : String) (txs : List Transaction)
    (hid : (txs.map (fun t => t.id)).Nodup) :
    ((personHistory txs person).map (fun e => e.1.id)).Nodup := by
  unfold personHistory
  have hperm := (List.perm_insertionSort histLE
    ((txs.filter (hasItemForPerson person)).filterMap
      (fun t => (personItemOf person t).map (fun i => (t, i))))).map (fun e => e.1.id)
  rw [(hperm.nodup_iff)]
  have hsub1 : List.Sublist (((txs.filter (hasItemForPerson person)).filterMap
      (fun t => (personItemOf person t).map (fun i => (t, i)))).map Prod.fst)
      (txs.filter (hasItemForPerson person)) :=
    filterMap_personItem_fst_sublist person _
  have hsub : List.Sublist ((((txs.filter (hasItemForPerson person)).filterMap
      (fun t => (personItemOf person t).map (fun i => (t, i)))).map Prod.fst).map
        (fun t => t.id))
      (txs.map (fun t => t.id)) :=
    (hsub1.trans (List.filter_sublist txs)).map (fun t => t.id)
  rw [List.map_map] at hsub
  exact hid.sublist hsub

theorem hasItem_personItemOf {person : String} {t : Transaction}
    (h : hasItemForPerson person t = true) :
    ∃ i, personItemOf person t = some i := by
  unfold hasItemForPerson at h
  unfold personItemOf
  cases hsd : t.splitDetails with
  | none => rw [hsd] at h; cases h
  | some sd =>
    rw [hsd] at h
    obtain ⟨x, hx, hpx⟩ := List.any_eq_true.mp h
    have : (sd.items.find? (fun i => i.name == person)).isSome :=
      List.find?_isSome.mpr ⟨x, hx, hpx⟩
    obtain ⟨i, hi⟩ := Option.isSome_iff_exists.mp this
    exact ⟨i, by simpa using hi⟩

theorem personHistory_ne_nil {person : String} {txs : List Transaction}
    (hhas : ∃ t ∈ txs, hasItemForPerson person t = true) :
    personHistory txs person ≠ [] := by
  obtain ⟨t, ht, hp⟩ := hhas
  obtain ⟨i, hi⟩ := hasItem_personItemOf hp
  have hmem : (t, i) ∈ (txs.filter (hasItemForPerson person)).filterMap
      (fun t => (personItemOf person t).map (fun j => (t, j))) := by
    refine List.mem_filterMap.mpr ⟨t, List.mem_filter.mpr ⟨ht, hp⟩, ?_⟩
    rw [hi]
    rfl
  have : (t, i) ∈ personHistory txs person :=
    (List.perm_insertionSort histLE _).mem_iff.mpr hmem
  exact List.ne_nil_of_mem this

theorem applyUpdatesFn_nil (txs : List Transaction) :
    applyUpdatesFn txs [] = txs := by
  unfold applyUpdatesFn mapValues
  simp

/-- C4 (amended).  For every bulk settlement of a positive payment for a
person with at least one split item (in a ledger with distinct transaction
ids and, per transaction, distinct item ids), the sum over all transactions
of the change in `paidAmount` equals the externally supplied amount *minus a
residue r with 0 ≤ r ≤ 0.009*: money is conserved up to the loop's 0.009
stop threshold, which silently discards a sub-cent residue (r is 0 whenever
the walk reaches the most recent transaction's item, which absorbs the whole
remainder).  Exact conservation, as originally claimed, fails — see the
counterexample. -/
theorem settlement_conservation_amended (txs : List Transaction) (person : String)
    (a : ℚ) (now payId today : String)
    (hid : (txs.map (fun t => t.id)).Nodup)
    (hitems : ∀ t ∈ txs,
      ((t.splitDetails.map (fun sd => sd.items.map (fun i => i.id))).getD []).Nodup)
    (hpos : 0 < a)
    (hhas : ∃ t ∈ txs, hasItemForPerson person t = true) :
    ∃ r : ℚ, 0 ≤ r ∧ r ≤ 9/1000 ∧
      ledgerPaidSum (handleUpdateTransaction txs
        (handleBulkSettle txs person a now payId today))
        = ledgerPaidSum txs + (a - r) := by
  have hne : personHistory txs person ≠ [] := personHistory_ne_nil hhas
  obtain ⟨e0, hes, hhead⟩ := List.exists_cons_of_ne_nil hne
  have hE : ∀ e ∈ (personHistory txs person).reverse,
      e.1 ∈ txs ∧ personItemOf person e.1 = some e.2 := by
    intro e he
    exact personHistory_entry (List.mem_reverse.mp he)
  have hndrel : (((personHistory txs person).reverse).map (fun e => e.1.id)).Nodup := by
    rw [List.map_reverse]
    exact (List.nodup_reverse).mpr (personHistory_ids_nodup person txs hid)
  have hmrid : ((personHistory txs person).head?.map (fun e => e.1.id)).getD "" = e0.1.id := by
    rw [hhead]
    rfl
  have hlastrel : ((personHistory txs person).reverse).getLast?.map (fun e => e.1.id)
      = some (((personHistory txs person).head?.map (fun e => e.1.id)).getD "") := by
    rw [List.getLast?_reverse, hhead]
    rfl
  have hrelne : (personHistory txs person).reverse ≠ [] := by
    intro h
    exact hne (List.reverse_eq_nil_iff.mp h)
  have key := bulkLoop_conservation txs person
    (((personHistory txs person).head?.map (fun e => e.1.id)).getD "") now payId today
    hid hitems ((personHistory txs person).reverse) a [] hpos.le hE hndrel
    (fun e _ => rfl) (fun kv hkv => absurd hkv (List.not_mem_nil kv))
  obtain ⟨k0, kle, ksum, _, klast⟩ := key
  have hbulk : handleBulkSettle txs person a now payId today
      = mapValues (bulkLoop
          (((personHistory txs person).head?.map (fun e => e.1.id)).getD "")
          now payId today ((personHistory txs person).reverse) a []).2 := by
    unfold handleBulkSettle
    rw [if_neg (not_le.mpr hpos)]
  refine ⟨_, k0, klast ⟨hrelne, hlastrel⟩, ?_⟩
  rw [hbulk, handleUpdate_eq_applyFn, ksum, applyUpdatesFn_nil]

section DecideClaims5

attribute [local semireducible] Rat.add Rat.mul Rat.inv Rat.sub

/-- C4 witness: the conservation bound at the concrete $10/$15 ledger with a
$12 payment. -/
theorem settlement_conservation_amended_witness :
    ∃ r : ℚ, 0 ≤ r ∧ r ≤ 9/1000 ∧
      ledgerPaidSum (handleUpdateTransaction [bulkT1, bulkT2]
        (handleBulkSettle [bulkT1, bulkT2] "P" 12 "now" "pay" "today"))
        = ledgerPaidSum [bulkT1, bulkT2] + (12 - r) :=
  settlement_conservation_amended [bulkT1, bulkT2] "P" 12 "now" "pay" "today"
    (by decide) (by decide) (by norm_num) ⟨bulkT1, by decide, by decide⟩

end DecideClaims5

end FinDash
